import Mathlib

/-!
Verification development for the ai-processing-layer message exchange core.

The development shallowly embeds three components of the repository:

* the A114 binary protocol (src/protocols/A114Protocol.ts): a self-describing
  codec for structured values plus a one-byte command framing;
* the cache manager (src/cache/CacheManager.ts): a wrapper around the npm
  lru-cache package with hit/miss/set/eviction statistics;
* the orchestrator (src/core/AIProcessingLayer.ts) and the token optimizer
  (src/utils/TokenOptimizer.ts) it consumes.

Modelling conventions:

* Node Buffers are `List Nat` of byte values; big-endian multi-byte reads and
  writes are spelled out with explicit division and remainder by 256.
* JavaScript numbers split into the integral case (`Int`) and the
  non-integral case, which is carried as the 8-byte IEEE-754 big-endian image
  that writeDoubleBE emits and readDoubleBE reads back unchanged.
* JavaScript strings are `List Char` (sequences of Unicode scalar values);
  Buffer.from(s, utf8) / toString(utf8) are the UTF-8 encoder and decoder
  defined below.
* Thrown exceptions are `Except` errors; `Date.now()` is an explicit `now`
  argument.
-/

/-! ### Byte-level helpers (Node Buffer reads and writes, big endian) -/

/-- writeInt8: the single byte stored for an integer in [-128, 127]
(two-complement, i.e. the value modulo 256). -/
def toU8 (n : Int) : Nat := (n % 256).toNat

/-- writeInt16BE: the two bytes stored for an integer in [-32768, 32767]. -/
def be16i (n : Int) : List Nat :=
  [(n % 65536).toNat / 256, (n % 65536).toNat % 256]

/-- writeInt32BE: the four bytes stored for an integer in the signed 32-bit
range. -/
def be32i (n : Int) : List Nat :=
  [(n % 4294967296).toNat / 16777216 % 256, (n % 4294967296).toNat / 65536 % 256,
   (n % 4294967296).toNat / 256 % 256, (n % 4294967296).toNat % 256]

/-- writeUInt32BE: the four bytes stored for an unsigned 32-bit length. -/
def be32 (n : Nat) : List Nat :=
  [n / 16777216 % 256, n / 65536 % 256, n / 256 % 256, n % 256]

/-- readUInt32BE: recompose four bytes into an unsigned value. -/
def rdU32 (b0 b1 b2 b3 : Nat) : Nat := ((b0 * 256 + b1) * 256 + b2) * 256 + b3

/-- readInt8: reinterpret one byte as a signed value. -/
def rdI8 (b : Nat) : Int := if b < 128 then (b : Int) else (b : Int) - 256

/-- readInt16BE: reinterpret two bytes as a signed value. -/
def rdI16 (b0 b1 : Nat) : Int :=
  if b0 * 256 + b1 < 32768 then ((b0 * 256 + b1 : Nat) : Int)
  else ((b0 * 256 + b1 : Nat) : Int) - 65536

/-- readInt32BE: reinterpret four bytes as a signed value. -/
def rdI32 (b0 b1 b2 b3 : Nat) : Int :=
  if rdU32 b0 b1 b2 b3 < 2147483648 then ((rdU32 b0 b1 b2 b3 : Nat) : Int)
  else ((rdU32 b0 b1 b2 b3 : Nat) : Int) - 4294967296

/-! ### UTF-8 (Buffer.from(s, utf8) and buffer.toString(utf8)) -/

/-- UTF-8 bytes of one Unicode scalar value. -/
def utf8EncodeChar (c : Char) : List Nat :=
  if c.toNat < 128 then [c.toNat]
  else if c.toNat < 2048 then [192 + c.toNat / 64, 128 + c.toNat % 64]
  else if c.toNat < 65536 then
    [224 + c.toNat / 4096, 128 + c.toNat / 64 % 64, 128 + c.toNat % 64]
  else
    [240 + c.toNat / 262144, 128 + c.toNat / 4096 % 64, 128 + c.toNat / 64 % 64,
      128 + c.toNat % 64]

/-- UTF-8 bytes of a string. -/
def utf8Encode : List Char → List Nat
  | [] => []
  | c :: cs => utf8EncodeChar c ++ utf8Encode cs

/-- The U+FFFD replacement character Node substitutes for malformed UTF-8. -/
def replChar : Char := Char.ofNat 65533

/-- Is the byte a UTF-8 continuation byte (10xxxxxx)? -/
def utf8Cont (b : Nat) : Bool := 128 ≤ b && b < 192

/-- One step of buffer.toString(utf8): given the lead byte and the bytes
after it, produce the decoded character and the remaining bytes. Malformed
input yields replacement characters; the source replaces each maximal
invalid subpart, which this model approximates (no claim touches malformed
byte sequences: the codec only decodes bytes its encoder wrote). -/
def utf8Step (b : Nat) (bs : List Nat) : Char × List Nat :=
  if b < 128 then (Char.ofNat b, bs)
  else if b < 192 then (replChar, bs)
  else if b < 224 then
    match bs with
    | b1 :: bs1 =>
      if utf8Cont b1 then
        if 128 ≤ (b - 192) * 64 + (b1 - 128) then
          (Char.ofNat ((b - 192) * 64 + (b1 - 128)), bs1)
        else (replChar, bs1)
      else (replChar, bs1)
    | [] => (replChar, [])
  else if b < 240 then
    match bs with
    | b1 :: b2 :: bs2 =>
      if utf8Cont b1 && utf8Cont b2 then
        if 2048 ≤ (b - 224) * 4096 + (b1 - 128) * 64 + (b2 - 128) &&
            ((b - 224) * 4096 + (b1 - 128) * 64 + (b2 - 128) < 55296 ||
              57343 < (b - 224) * 4096 + (b1 - 128) * 64 + (b2 - 128)) then
          (Char.ofNat ((b - 224) * 4096 + (b1 - 128) * 64 + (b2 - 128)), bs2)
        else (replChar, bs2)
      else (replChar, bs2)
    | _ => (replChar, [])
  else if b < 248 then
    match bs with
    | b1 :: b2 :: b3 :: bs3 =>
      if utf8Cont b1 && utf8Cont b2 && utf8Cont b3 then
        if 65536 ≤ (b - 240) * 262144 + (b1 - 128) * 4096 + (b2 - 128) * 64 + (b3 - 128) &&
            (b - 240) * 262144 + (b1 - 128) * 4096 + (b2 - 128) * 64 + (b3 - 128) < 1114112 then
          (Char.ofNat ((b - 240) * 262144 + (b1 - 128) * 4096 + (b2 - 128) * 64 + (b3 - 128)), bs3)
        else (replChar, bs3)
      else (replChar, bs3)
    | _ => (replChar, [])
  else (replChar, bs)

/-- Decode UTF-8 bytes back to a string by iterating utf8Step. The fuel only
serves structural termination: each step consumes at least the lead byte, so
a fuel equal to the byte count never runs out (utf8DecodeF_fuel below). -/
def utf8DecodeF : Nat → List Nat → List Char
  | 0, _ => []
  | _ + 1, [] => []
  | fuel + 1, b :: bs => (utf8Step b bs).1 :: utf8DecodeF fuel (utf8Step b bs).2

/-- buffer.toString(utf8). -/
def utf8Decode (bs : List Nat) : List Char := utf8DecodeF bs.length bs

/-! ### Structured values

The polymorphic value domain the codec serializes: null, booleans, integral
numbers, non-integral numbers (by their IEEE-754 image), strings, arrays and
string-keyed objects. Arrays and objects are separate mutual types so that
every function below is structurally recursive and kernel-reducible. -/

mutual
inductive Value where
  | vnull
  | vbool (b : Bool)
  | vint (n : Int)
  | vfloat (bits : List Nat)
  | vstr (s : List Char)
  | varr (xs : VList)
  | vobj (kvs : VPairs)
deriving DecidableEq
inductive VList where
  | nil
  | cons (v : Value) (t : VList)
deriving DecidableEq
inductive VPairs where
  | nil
  | cons (k : List Char) (v : Value) (t : VPairs)
deriving DecidableEq
end

/-- Number of elements of an array value. -/
def VList.len : VList → Nat
  | .nil => 0
  | .cons _ t => t.len + 1

/-- Number of key/value pairs of an object value. -/
def VPairs.len : VPairs → Nat
  | .nil => 0
  | .cons _ _ t => t.len + 1

/-- Keys of an object value, in order. -/
def VPairs.keys : VPairs → List (List Char)
  | .nil => []
  | .cons k _ t => k :: t.keys

/-- Concatenation of pair lists. -/
def VPairs.append : VPairs → VPairs → VPairs
  | .nil, q => q
  | .cons k v t, q => .cons k v (t.append q)

/-- The effect of the JavaScript assignment obj[k] = v on an object whose
pairs are held in insertion order: an existing key keeps its position and has
its value replaced, a new key is appended. -/
def jsInsert : VPairs → List Char → Value → VPairs
  | .nil, k, v => .cons k v .nil
  | .cons k0 v0 t, k, v =>
    if k0 = k then .cons k0 v t else .cons k0 v0 (jsInsert t k v)

/-! ### A114 protocol errors

Every throw site of A114Protocol gets one constructor; all of them are plain
JavaScript Error values in the source (the FORMAT_ERROR taxonomy of the
specification). -/

inductive PErr where
  | tooShort
  | badMagic
  | badVersion (v : Nat)
  | lenMismatch
  | oob
  | unknownType (t : Nat)
  | depth
  | intRange
  | u32Range
  | nonStringKey
  | unknownCommand
  | emptyPacket
  | unknownCommandCode
deriving DecidableEq

/-! ### Encoding (A114Protocol.encodeValue / encodePayload / encode) -/

/-- The STRING branch of encodeValue: tag 0x07, 4-byte big-endian byte
length, UTF-8 bytes. writeUInt32BE rejects lengths outside the unsigned
32-bit range. -/
def encodeStr (s : List Char) : Except PErr (List Nat) :=
  if (utf8Encode s).length < 4294967296 then
    .ok (7 :: be32 (utf8Encode s).length ++ utf8Encode s)
  else .error .u32Range

mutual
/-- A114Protocol.encodeValue. Integers pick the narrowest of INT8 (0x02),
INT16 (0x03), INT32 (0x04); writeInt32BE throws outside the signed 32-bit
range. Non-integral numbers take FLOAT64 (0x06) with their 8-byte image.
Object keys are encoded through the string branch, which is the branch the
source call encodeValue(key) always takes. -/
def encodeValue : Value → Except PErr (List Nat)
  | .vnull => .ok [0]
  | .vbool b => .ok [1, if b then 1 else 0]
  | .vint n =>
    if -128 ≤ n ∧ n ≤ 127 then .ok [2, toU8 n]
    else if -32768 ≤ n ∧ n ≤ 32767 then .ok (3 :: be16i n)
    else if -2147483648 ≤ n ∧ n ≤ 2147483647 then .ok (4 :: be32i n)
    else .error .intRange
  | .vfloat bits => .ok (6 :: bits)
  | .vstr s => encodeStr s
  | .varr xs =>
    if xs.len < 4294967296 then
      match encodeList xs with
      | .error e => .error e
      | .ok body => .ok (8 :: be32 xs.len ++ body)
    else .error .u32Range
  | .vobj kvs =>
    if kvs.len < 4294967296 then
      match encodePairs kvs with
      | .error e => .error e
      | .ok body => .ok (9 :: be32 kvs.len ++ body)
    else .error .u32Range
/-- Encoded bytes of the elements of an array, in order. -/
def encodeList : VList → Except PErr (List Nat)
  | .nil => .ok []
  | .cons v t =>
    match encodeValue v with
    | .error e => .error e
    | .ok hd =>
      match encodeList t with
      | .error e => .error e
      | .ok tl => .ok (hd ++ tl)
/-- Encoded bytes of the pairs of an object: each key as a STRING value,
then the value, in order. -/
def encodePairs : VPairs → Except PErr (List Nat)
  | .nil => .ok []
  | .cons k v t =>
    match encodeStr k with
    | .error e => .error e
    | .ok kb =>
      match encodeValue v with
      | .error e => .error e
      | .ok vb =>
        match encodePairs t with
        | .error e => .error e
        | .ok tl => .ok (kb ++ vb ++ tl)
end

/-- A114Protocol.encodePayload: the encoded value bytes. -/
def encodePayload (v : Value) : Except PErr (List Nat) := encodeValue v

/-- A114Protocol.createHeader: magic 0xA1 0x14, version 1, reserved flags 0,
4-byte big-endian payload length (writeUInt32BE rejects lengths at or above
2^32). -/
def createHeader (payloadLength : Nat) : Except PErr (List Nat) :=
  if payloadLength < 4294967296 then
    .ok (161 :: 20 :: 1 :: 0 :: be32 payloadLength)
  else .error .u32Range

/-- A114Protocol.encode: header followed by payload. -/
def encode (v : Value) : Except PErr (List Nat) :=
  match encodePayload v with
  | .error e => .error e
  | .ok payload =>
    match createHeader payload.length with
    | .error e => .error e
    | .ok header => .ok (header ++ payload)

/-! ### Decoding (A114Protocol.decodeValue / decodePayload / decode) -/

/-- readUInt8 on the remaining bytes; out of range offsets throw. -/
def rd8 : List Nat → Except PErr (Nat × List Nat)
  | [] => .error .oob
  | b :: bs => .ok (b, bs)

/-- readUInt32BE on the remaining bytes. -/
def rd32 : List Nat → Except PErr (Nat × List Nat)
  | b0 :: b1 :: b2 :: b3 :: bs => .ok (rdU32 b0 b1 b2 b3, bs)
  | _ => .error .oob

/-- readInt16BE on the remaining bytes. -/
def rdI16l : List Nat → Except PErr (Int × List Nat)
  | b0 :: b1 :: bs => .ok (rdI16 b0 b1, bs)
  | _ => .error .oob

/-- readInt32BE on the remaining bytes. -/
def rdI32l : List Nat → Except PErr (Int × List Nat)
  | b0 :: b1 :: b2 :: b3 :: bs => .ok (rdI32 b0 b1 b2 b3, bs)
  | _ => .error .oob

/-- readDoubleBE on the remaining bytes: the 8-byte image. -/
def rdF64l : List Nat → Except PErr (List Nat × List Nat)
  | b0 :: b1 :: b2 :: b3 :: b4 :: b5 :: b6 :: b7 :: bs =>
    .ok ([b0, b1, b2, b3, b4, b5, b6, b7], bs)
  | _ => .error .oob

mutual
/-- A114Protocol.decodeValue, in suffix style: read the tag, dispatch,
return the value and the remaining bytes. The source recursion terminates
because every recursive call first consumes the tag byte from a finite
buffer and out-of-range reads throw; the explicit fuel bounds that recursion
and is chosen large enough by decodePayload that it never runs out on any
input decodePayload receives. FLOAT32 (0x05) and BINARY (0x0A) have no case
in the source switch and fall to the unknown-type throw. -/
def decodeValue : Nat → List Nat → Except PErr (Value × List Nat)
  | 0, _ => .error .depth
  | fuel + 1, bs =>
    match rd8 bs with
    | .error e => .error e
    | .ok (t, bs1) =>
      if t = 0 then .ok (.vnull, bs1)
      else if t = 1 then
        match rd8 bs1 with
        | .error e => .error e
        | .ok (b, bs2) => .ok (.vbool (b == 1), bs2)
      else if t = 2 then
        match rd8 bs1 with
        | .error e => .error e
        | .ok (b, bs2) => .ok (.vint (rdI8 b), bs2)
      else if t = 3 then
        match rdI16l bs1 with
        | .error e => .error e
        | .ok (n, bs2) => .ok (.vint n, bs2)
      else if t = 4 then
        match rdI32l bs1 with
        | .error e => .error e
        | .ok (n, bs2) => .ok (.vint n, bs2)
      else if t = 6 then
        match rdF64l bs1 with
        | .error e => .error e
        | .ok (bits, bs2) => .ok (.vfloat bits, bs2)
      else if t = 7 then
        match rd32 bs1 with
        | .error e => .error e
        | .ok (n, bs2) => .ok (.vstr (utf8Decode (bs2.take n)), bs2.drop n)
      else if t = 8 then
        match rd32 bs1 with
        | .error e => .error e
        | .ok (n, bs2) =>
          match decodeListN fuel n bs2 with
          | .error e => .error e
          | .ok (vs, bs3) => .ok (.varr vs, bs3)
      else if t = 9 then
        match rd32 bs1 with
        | .error e => .error e
        | .ok (n, bs2) =>
          match decodePairsN fuel n .nil bs2 with
          | .error e => .error e
          | .ok (ps, bs3) => .ok (.vobj ps, bs3)
      else .error (.unknownType t)
/-- The ARRAY loop of decodeValue: decode n values in sequence. -/
def decodeListN : Nat → Nat → List Nat → Except PErr (VList × List Nat)
  | _, 0, bs => .ok (.nil, bs)
  | 0, _ + 1, _ => .error .depth
  | fuel + 1, n + 1, bs =>
    match decodeValue fuel bs with
    | .error e => .error e
    | .ok (v, bs1) =>
      match decodeListN fuel n bs1 with
      | .error e => .error e
      | .ok (vs, bs2) => .ok (.cons v vs, bs2)
/-- The OBJECT loop of decodeValue: decode n key/value pairs in sequence and
assign each into the accumulated object. The source assigns obj[key] = value
where a non-string key would be coerced to a string; packets written by
encodeValue always carry string keys, and the model rejects the unreachable
non-string case instead of modelling the coercion. -/
def decodePairsN : Nat → Nat → VPairs → List Nat → Except PErr (VPairs × List Nat)
  | _, 0, acc, bs => .ok (acc, bs)
  | 0, _ + 1, _, _ => .error .depth
  | fuel + 1, n + 1, acc, bs =>
    match decodeValue fuel bs with
    | .error e => .error e
    | .ok (kv, bs1) =>
      match decodeValue fuel bs1 with
      | .error e => .error e
      | .ok (vv, bs2) =>
        match kv with
        | .vstr k => decodePairsN fuel n (jsInsert acc k vv) bs2
        | _ => .error .nonStringKey
end

/-- A114Protocol.decodePayload: decode one value at offset 0 and return it,
ignoring any trailing bytes, as the source does. -/
def decodePayload (bs : List Nat) : Except PErr Value :=
  match decodeValue (bs.length + 1) bs with
  | .error e => .error e
  | .ok (v, _) => .ok v

/-- A114Protocol.parseHeader on the 8 header bytes: magic check, then
version check, then flags and payload length reads. -/
def parseHeader (bs : List Nat) : Except PErr (Nat × Nat × Nat) :=
  match bs with
  | m1 :: m2 :: ver :: flags :: l0 :: l1 :: l2 :: l3 :: _ =>
    if m1 ≠ 161 ∨ m2 ≠ 20 then .error .badMagic
    else if ver ≠ 1 then .error (.badVersion ver)
    else .ok (ver, flags, rdU32 l0 l1 l2 l3)
  | _ => .error .oob

/-- A114Protocol.decode: length check, header parse, payload length check,
payload decode — in that order. -/
def decode (bs : List Nat) : Except PErr Value :=
  if bs.length < 8 then .error .tooShort
  else
    match parseHeader (bs.take 8) with
    | .error e => .error e
    | .ok (_, _, payloadLength) =>
      if (bs.drop 8).length ≠ payloadLength then .error .lenMismatch
      else decodePayload (bs.drop 8)

/-! ### Well-formed values

The domain of the round-trip claim: integers representable by the INT8,
INT16 or INT32 tags, 8-byte images for non-integral numbers, strings and
collections whose lengths fit the 4-byte length fields, and objects with
distinct keys (JavaScript objects cannot hold a key twice). -/

mutual
def wfV : Value → Bool
  | .vnull => true
  | .vbool _ => true
  | .vint n => decide (-2147483648 ≤ n ∧ n ≤ 2147483647)
  | .vfloat bits => bits.length == 8 && bits.all (· < 256)
  | .vstr s => decide ((utf8Encode s).length < 4294967296)
  | .varr xs => decide (xs.len < 4294967296) && wfL xs
  | .vobj kvs =>
    decide (kvs.len < 4294967296) && decide kvs.keys.Nodup &&
      kvs.keys.all (fun k => decide ((utf8Encode k).length < 4294967296)) && wfP kvs
def wfL : VList → Bool
  | .nil => true
  | .cons v t => wfV v && wfL t
def wfP : VPairs → Bool
  | .nil => true
  | .cons _ v t => wfV v && wfP t
end

/-! ### UTF-8 round trip -/

theorem charFacts (c : Char) : (c.toNat < 55296 ∨ 57343 < c.toNat) ∧ c.toNat < 1114112 := by
  have h : Nat.isValidChar c.toNat := c.valid
  rcases h with h | ⟨h1, h2⟩
  · exact ⟨Or.inl (by omega), by omega⟩
  · exact ⟨Or.inr (by omega), h2⟩

theorem utf8Step_1 (b : Nat) (bs : List Nat) (h : b < 128) :
    utf8Step b bs = (Char.ofNat b, bs) := by
  unfold utf8Step
  rw [if_pos h]

theorem utf8Step_2 (b b1 : Nat) (bs : List Nat) (h0 : 192 ≤ b) (h1 : b < 224)
    (hc : utf8Cont b1 = true) (hn : 128 ≤ (b - 192) * 64 + (b1 - 128)) :
    utf8Step b (b1 :: bs) = (Char.ofNat ((b - 192) * 64 + (b1 - 128)), bs) := by
  unfold utf8Step
  rw [if_neg (by omega), if_neg (by omega), if_pos (by omega)]
  simp only []
  rw [if_pos hc, if_pos hn]

theorem utf8Step_3 (b b1 b2 : Nat) (bs : List Nat) (h0 : 224 ≤ b) (h1 : b < 240)
    (hc1 : utf8Cont b1 = true) (hc2 : utf8Cont b2 = true)
    (hn : (2048 ≤ (b - 224) * 4096 + (b1 - 128) * 64 + (b2 - 128) &&
      ((b - 224) * 4096 + (b1 - 128) * 64 + (b2 - 128) < 55296 ||
        57343 < (b - 224) * 4096 + (b1 - 128) * 64 + (b2 - 128))) = true) :
    utf8Step b (b1 :: b2 :: bs) =
      (Char.ofNat ((b - 224) * 4096 + (b1 - 128) * 64 + (b2 - 128)), bs) := by
  unfold utf8Step
  rw [if_neg (by omega), if_neg (by omega), if_neg (by omega), if_pos (by omega)]
  simp only [hc1, hc2, Bool.and_self, if_true]
  rw [if_pos hn]

theorem utf8Step_4 (b b1 b2 b3 : Nat) (bs : List Nat) (h0 : 240 ≤ b) (h1 : b < 248)
    (hc1 : utf8Cont b1 = true) (hc2 : utf8Cont b2 = true) (hc3 : utf8Cont b3 = true)
    (hn : (65536 ≤ (b - 240) * 262144 + (b1 - 128) * 4096 + (b2 - 128) * 64 + (b3 - 128) &&
      (b - 240) * 262144 + (b1 - 128) * 4096 + (b2 - 128) * 64 + (b3 - 128) < 1114112) = true) :
    utf8Step b (b1 :: b2 :: b3 :: bs) =
      (Char.ofNat ((b - 240) * 262144 + (b1 - 128) * 4096 + (b2 - 128) * 64 + (b3 - 128)),
        bs) := by
  unfold utf8Step
  rw [if_neg (by omega), if_neg (by omega), if_neg (by omega), if_neg (by omega),
    if_pos (by omega)]
  simp only [hc1, hc2, hc3, Bool.and_self, if_true]
  rw [if_pos hn]

theorem utf8Step_len (b : Nat) (bs : List Nat) :
    (utf8Step b bs).2.length ≤ bs.length := by
  unfold utf8Step
  repeat' split
  all_goals simp_all
  all_goals omega

theorem utf8DecodeF_nil (fuel : Nat) : utf8DecodeF fuel [] = [] := by
  cases fuel <;> rfl

theorem utf8DecodeF_fuel (f1 : Nat) : ∀ (f2 : Nat) (bs : List Nat),
    bs.length ≤ f1 → bs.length ≤ f2 → utf8DecodeF f1 bs = utf8DecodeF f2 bs := by
  induction f1 with
  | zero =>
    intro f2 bs h1 _
    have : bs = [] := by
      cases bs with
      | nil => rfl
      | cons b t => simp at h1
    rw [this, utf8DecodeF_nil, utf8DecodeF_nil]
  | succ f ih =>
    intro f2 bs h1 h2
    cases bs with
    | nil => rw [utf8DecodeF_nil, utf8DecodeF_nil]
    | cons b t =>
      cases f2 with
      | zero => simp at h2
      | succ g =>
        rw [utf8DecodeF, utf8DecodeF]
        have hlen := utf8Step_len b t
        have ht : (utf8Step b t).2.length ≤ f := by simp at h1; omega
        have hg : (utf8Step b t).2.length ≤ g := by simp at h2; omega
        rw [ih _ _ ht hg]

theorem utf8EncodeChar_len (c : Char) :
    1 ≤ (utf8EncodeChar c).length ∧ (utf8EncodeChar c).length ≤ 4 := by
  rw [utf8EncodeChar]
  repeat' split
  all_goals simp

theorem utf8Step_encodeChar (c : Char) (rest : List Nat) :
    utf8Step ((utf8EncodeChar c).headD 0) ((utf8EncodeChar c).tail ++ rest) = (c, rest) := by
  obtain ⟨hs, hm⟩ := charFacts c
  by_cases h1 : c.toNat < 128
  · rw [utf8EncodeChar]
    rw [if_pos h1]
    simp only [List.headD, List.tail, List.nil_append]
    rw [utf8Step_1 _ _ h1, Char.ofNat_toNat]
  · by_cases h2 : c.toNat < 2048
    · rw [utf8EncodeChar]
      rw [if_neg h1, if_pos h2]
      simp only [List.headD, List.tail, List.cons_append, List.nil_append]
      rw [utf8Step_2 _ _ _ (by omega) (by omega)
        (by simp only [utf8Cont, Bool.and_eq_true, decide_eq_true_eq]; omega) (by omega)]
      have hn : (192 + c.toNat / 64 - 192) * 64 + (128 + c.toNat % 64 - 128) = c.toNat := by
        omega
      rw [hn, Char.ofNat_toNat]
    · by_cases h3 : c.toNat < 65536
      · rw [utf8EncodeChar]
        rw [if_neg h1, if_neg h2, if_pos h3]
        simp only [List.headD, List.tail, List.cons_append, List.nil_append]
        rw [utf8Step_3 _ _ _ _ (by omega) (by omega)
          (by simp only [utf8Cont, Bool.and_eq_true, decide_eq_true_eq]; omega)
          (by simp only [utf8Cont, Bool.and_eq_true, decide_eq_true_eq]; omega)
          (by simp only [Bool.and_eq_true, Bool.or_eq_true, decide_eq_true_eq]; omega)]
        have hn : (224 + c.toNat / 4096 - 224) * 4096 + (128 + c.toNat / 64 % 64 - 128) * 64 +
            (128 + c.toNat % 64 - 128) = c.toNat := by omega
        rw [hn, Char.ofNat_toNat]
      · rw [utf8EncodeChar]
        rw [if_neg h1, if_neg h2, if_neg h3]
        simp only [List.headD, List.tail, List.cons_append, List.nil_append]
        rw [utf8Step_4 _ _ _ _ _ (by omega) (by omega)
          (by simp only [utf8Cont, Bool.and_eq_true, decide_eq_true_eq]; omega)
          (by simp only [utf8Cont, Bool.and_eq_true, decide_eq_true_eq]; omega)
          (by simp only [utf8Cont, Bool.and_eq_true, decide_eq_true_eq]; omega)
          (by simp only [Bool.and_eq_true, decide_eq_true_eq]; omega)]
        have hn : (240 + c.toNat / 262144 - 240) * 262144 +
            (128 + c.toNat / 4096 % 64 - 128) * 4096 + (128 + c.toNat / 64 % 64 - 128) * 64 +
            (128 + c.toNat % 64 - 128) = c.toNat := by omega
        rw [hn, Char.ofNat_toNat]

theorem utf8EncodeChar_cons (c : Char) :
    utf8EncodeChar c = (utf8EncodeChar c).headD 0 :: (utf8EncodeChar c).tail := by
  obtain ⟨h1, _⟩ := utf8EncodeChar_len c
  cases h : utf8EncodeChar c with
  | nil => rw [h] at h1; simp at h1
  | cons a t => simp

theorem utf8F_rt (s : List Char) : ∀ (rest : List Nat) (fuel : Nat),
    (utf8Encode s ++ rest).length ≤ fuel →
    utf8DecodeF fuel (utf8Encode s ++ rest) = s ++ utf8DecodeF rest.length rest := by
  induction s with
  | nil =>
    intro rest fuel h
    rw [utf8Encode, List.nil_append] at h ⊢
    rw [List.nil_append, utf8DecodeF_fuel fuel rest.length rest h (by omega)]
  | cons c cs ih =>
    intro rest fuel h
    rw [utf8Encode, List.append_assoc] at h ⊢
    obtain ⟨hc1, hc4⟩ := utf8EncodeChar_len c
    cases fuel with
    | zero =>
      rw [List.length_append] at h
      omega
    | succ f =>
      rw [utf8EncodeChar_cons c, List.cons_append, utf8DecodeF, utf8Step_encodeChar c _]
      have hlen : (utf8Encode cs ++ rest).length ≤ f := by
        rw [List.length_append] at h
        omega
      rw [ih _ f hlen, List.cons_append]

theorem utf8_rt (s : List Char) : utf8Decode (utf8Encode s) = s := by
  rw [utf8Decode]
  have h := utf8F_rt s [] (utf8Encode s).length (by simp)
  rw [List.append_nil] at h
  rw [h, utf8DecodeF_nil, List.append_nil]

/-! ### Integer read/write round trips -/

theorem rdI8_toU8 (n : Int) (h1 : -128 ≤ n) (h2 : n ≤ 127) : rdI8 (toU8 n) = n := by
  rw [rdI8, toU8]
  split <;> omega

theorem rdI16_comp (n : Int) (h1 : -32768 ≤ n) (h2 : n ≤ 32767) :
    rdI16 ((n % 65536).toNat / 256) ((n % 65536).toNat % 256) = n := by
  rw [rdI16]
  split <;> omega

theorem rdI32_comp (n : Int) (h1 : -2147483648 ≤ n) (h2 : n ≤ 2147483647) :
    rdI32 ((n % 4294967296).toNat / 16777216 % 256) ((n % 4294967296).toNat / 65536 % 256)
      ((n % 4294967296).toNat / 256 % 256) ((n % 4294967296).toNat % 256) = n := by
  rw [rdI32, rdU32]
  split <;> omega

theorem rdU32_comp (n : Nat) (h : n < 4294967296) :
    rdU32 (n / 16777216 % 256) (n / 65536 % 256) (n / 256 % 256) (n % 256) = n := by
  rw [rdU32]
  omega

/-! ### Per-tag decode equations -/

theorem decV_null (f : Nat) (bs : List Nat) :
    decodeValue (f + 1) (0 :: bs) = .ok (.vnull, bs) := rfl

theorem decV_bool (f : Nat) (b : Nat) (bs : List Nat) :
    decodeValue (f + 1) (1 :: b :: bs) = .ok (.vbool (b == 1), bs) := rfl

theorem decV_int8 (f : Nat) (b : Nat) (bs : List Nat) :
    decodeValue (f + 1) (2 :: b :: bs) = .ok (.vint (rdI8 b), bs) := rfl

theorem decV_int16 (f : Nat) (b0 b1 : Nat) (bs : List Nat) :
    decodeValue (f + 1) (3 :: b0 :: b1 :: bs) = .ok (.vint (rdI16 b0 b1), bs) := rfl

theorem decV_int32 (f : Nat) (b0 b1 b2 b3 : Nat) (bs : List Nat) :
    decodeValue (f + 1) (4 :: b0 :: b1 :: b2 :: b3 :: bs) =
      .ok (.vint (rdI32 b0 b1 b2 b3), bs) := rfl

theorem decV_f64 (f : Nat) (b0 b1 b2 b3 b4 b5 b6 b7 : Nat) (bs : List Nat) :
    decodeValue (f + 1) (6 :: b0 :: b1 :: b2 :: b3 :: b4 :: b5 :: b6 :: b7 :: bs) =
      .ok (.vfloat [b0, b1, b2, b3, b4, b5, b6, b7], bs) := rfl

theorem decV_str (f : Nat) (l0 l1 l2 l3 : Nat) (bs : List Nat) :
    decodeValue (f + 1) (7 :: l0 :: l1 :: l2 :: l3 :: bs) =
      .ok (.vstr (utf8Decode (bs.take (rdU32 l0 l1 l2 l3))), bs.drop (rdU32 l0 l1 l2 l3)) := rfl

theorem decV_arr (f : Nat) (l0 l1 l2 l3 : Nat) (bs : List Nat) :
    decodeValue (f + 1) (8 :: l0 :: l1 :: l2 :: l3 :: bs) =
      match decodeListN f (rdU32 l0 l1 l2 l3) bs with
      | .error e => .error e
      | .ok (vs, bs3) => .ok (.varr vs, bs3) := rfl

theorem decV_obj (f : Nat) (l0 l1 l2 l3 : Nat) (bs : List Nat) :
    decodeValue (f + 1) (9 :: l0 :: l1 :: l2 :: l3 :: bs) =
      match decodePairsN f (rdU32 l0 l1 l2 l3) .nil bs with
      | .error e => .error e
      | .ok (ps, bs3) => .ok (.vobj ps, bs3) := rfl

/-! ### Encode inversions and helpers -/

theorem encodeStr_ok (s : List Char) (bs : List Nat) (h : encodeStr s = .ok bs) :
    bs = 7 :: be32 (utf8Encode s).length ++ utf8Encode s ∧
      (utf8Encode s).length < 4294967296 := by
  rw [encodeStr] at h
  split at h
  · injection h with h
    exact ⟨h.symm, by assumption⟩
  · cases h

theorem encodeStr_len_pos (s : List Char) (bs : List Nat) (h : encodeStr s = .ok bs) :
    1 ≤ bs.length := by
  obtain ⟨hb, _⟩ := encodeStr_ok s bs h
  rw [hb]
  simp

theorem encLen_pos (v : Value) (bs : List Nat) (h : encodeValue v = .ok bs) :
    1 ≤ bs.length := by
  cases v with
  | vnull =>
    rw [encodeValue] at h
    injection h with h
    rw [← h]
    simp
  | vbool b =>
    rw [encodeValue] at h
    injection h with h
    rw [← h]
    simp
  | vint n =>
    rw [encodeValue] at h
    split at h
    · injection h with h
      rw [← h]
      simp
    · split at h
      · injection h with h
        rw [← h]
        simp [be16i]
      · split at h
        · injection h with h
          rw [← h]
          simp [be32i]
        · cases h
  | vfloat bits =>
    rw [encodeValue] at h
    injection h with h
    rw [← h]
    simp
  | vstr s =>
    rw [encodeValue] at h
    exact encodeStr_len_pos s bs h
  | varr xs =>
    rw [encodeValue] at h
    split at h
    · split at h
      · cases h
      · injection h with h
        rw [← h]
        simp
    · cases h
  | vobj kvs =>
    rw [encodeValue] at h
    split at h
    · split at h
      · cases h
      · injection h with h
        rw [← h]
        simp
    · cases h

theorem list_len8 (l : List Nat) (h : l.length = 8) :
    ∃ b0 b1 b2 b3 b4 b5 b6 b7, l = [b0, b1, b2, b3, b4, b5, b6, b7] := by
  rcases l with _ | ⟨b0, l⟩
  · simp at h
  rcases l with _ | ⟨b1, l⟩
  · simp at h
  rcases l with _ | ⟨b2, l⟩
  · simp at h
  rcases l with _ | ⟨b3, l⟩
  · simp at h
  rcases l with _ | ⟨b4, l⟩
  · simp at h
  rcases l with _ | ⟨b5, l⟩
  · simp at h
  rcases l with _ | ⟨b6, l⟩
  · simp at h
  rcases l with _ | ⟨b7, l⟩
  · simp at h
  rcases l with _ | ⟨b8, l⟩
  · exact ⟨b0, b1, b2, b3, b4, b5, b6, b7, rfl⟩
  · simp at h

theorem VPairs.append_nil_right (p : VPairs) : p.append .nil = p := by
  cases p with
  | nil => rfl
  | cons k v t => rw [VPairs.append, VPairs.append_nil_right t]

theorem VPairs.append_cons_nil (k : List Char) (v : Value) (t : VPairs) :
    (VPairs.cons k v .nil).append t = .cons k v t := rfl

theorem VPairs.append_assoc (p q r : VPairs) :
    (p.append q).append r = p.append (q.append r) := by
  cases p with
  | nil => rfl
  | cons k v t =>
    rw [VPairs.append, VPairs.append, VPairs.append, VPairs.append_assoc t q r]

theorem VPairs.keys_append (p q : VPairs) : (p.append q).keys = p.keys ++ q.keys := by
  cases p with
  | nil => rfl
  | cons k v t =>
    rw [VPairs.append, VPairs.keys, VPairs.keys, VPairs.keys_append t q, List.cons_append]

theorem jsInsert_fresh (acc : VPairs) (k : List Char) (v : Value) (h : k ∉ acc.keys) :
    jsInsert acc k v = acc.append (.cons k v .nil) := by
  cases acc with
  | nil => rfl
  | cons k0 v0 t =>
    rw [VPairs.keys] at h
    simp only [List.mem_cons, not_or] at h
    rw [jsInsert, if_neg (fun he => h.1 he.symm), VPairs.append,
      jsInsert_fresh t k v h.2]

theorem decodeListN_zero (fuel : Nat) (bs : List Nat) :
    decodeListN fuel 0 bs = .ok (.nil, bs) := by
  cases fuel <;> rfl

theorem decodePairsN_zero (fuel : Nat) (acc : VPairs) (bs : List Nat) :
    decodePairsN fuel 0 acc bs = .ok (acc, bs) := by
  cases fuel <;> rfl

theorem rt_str (s : List Char) (bs : List Nat) (h : encodeStr s = .ok bs) :
    ∀ (rest : List Nat) (fuel : Nat), bs.length ≤ fuel →
    decodeValue fuel (bs ++ rest) = .ok (.vstr s, rest) := by
  intro rest fuel hf
  obtain ⟨hb, hlt⟩ := encodeStr_ok s bs h
  subst hb
  cases fuel with
  | zero => simp at hf
  | succ f =>
    rw [be32]
    simp only [List.cons_append, List.append_assoc, List.nil_append]
    rw [decV_str, rdU32_comp _ hlt, List.take_left, List.drop_left, utf8_rt]

/-! ### The payload round trip -/

mutual
theorem rtV (v : Value) : ∀ (bs : List Nat), encodeValue v = .ok bs → wfV v = true →
    ∀ (rest : List Nat) (fuel : Nat), bs.length ≤ fuel →
    decodeValue fuel (bs ++ rest) = .ok (v, rest) := by
  intro bs h hw rest fuel hf
  cases v with
  | vnull =>
    rw [encodeValue] at h
    injection h with h
    rw [← h] at hf ⊢
    cases fuel with
    | zero => simp at hf
    | succ f =>
      simp only [List.cons_append, List.nil_append]
      exact decV_null f rest
  | vbool b =>
    rw [encodeValue] at h
    injection h with h
    rw [← h] at hf ⊢
    cases fuel with
    | zero => simp at hf
    | succ f =>
      simp only [List.cons_append, List.nil_append]
      rw [decV_bool]
      cases b <;> rfl
  | vint n =>
    rw [encodeValue] at h
    split at h
    · injection h with h
      rw [← h] at hf ⊢
      cases fuel with
      | zero => simp at hf
      | succ f =>
        simp only [List.cons_append, List.nil_append]
        rw [decV_int8, rdI8_toU8 n (by omega) (by omega)]
    · split at h
      · injection h with h
        rw [← h] at hf ⊢
        cases fuel with
        | zero => simp at hf
        | succ f =>
          rw [be16i]
          simp only [List.cons_append, List.nil_append]
          rw [decV_int16, rdI16_comp n (by omega) (by omega)]
      · split at h
        · injection h with h
          rw [← h] at hf ⊢
          cases fuel with
          | zero => simp at hf
          | succ f =>
            rw [be32i]
            simp only [List.cons_append, List.nil_append]
            rw [decV_int32, rdI32_comp n (by omega) (by omega)]
        · cases h
  | vfloat bits =>
    rw [encodeValue] at h
    injection h with h
    rw [wfV, Bool.and_eq_true, beq_iff_eq] at hw
    obtain ⟨b0, b1, b2, b3, b4, b5, b6, b7, hb⟩ := list_len8 bits hw.1
    rw [← h, hb] at hf ⊢
    cases fuel with
    | zero => simp at hf
    | succ f =>
      simp only [List.cons_append, List.nil_append]
      exact decV_f64 f b0 b1 b2 b3 b4 b5 b6 b7 rest
  | vstr s =>
    rw [encodeValue] at h
    exact rt_str s bs h rest fuel hf
  | varr xs =>
    rw [encodeValue] at h
    rw [wfV, Bool.and_eq_true, decide_eq_true_eq] at hw
    split at h
    · cases heq : encodeList xs with
      | error e => rw [heq] at h; cases h
      | ok body =>
        rw [heq] at h
        injection h with h
        rw [← h] at hf ⊢
        cases fuel with
        | zero => simp at hf
        | succ f =>
          rw [be32]
          simp only [List.cons_append, List.append_assoc, List.nil_append]
          rw [decV_arr, rdU32_comp _ hw.1]
          rw [rtL xs body heq hw.2 rest f (by simp [be32] at hf; omega)]
    · cases h
  | vobj kvs =>
    rw [encodeValue] at h
    rw [wfV, Bool.and_eq_true, Bool.and_eq_true, Bool.and_eq_true,
      decide_eq_true_eq, decide_eq_true_eq] at hw
    obtain ⟨⟨⟨hlen, hnd⟩, hkb⟩, hwp⟩ := hw
    rw [List.all_eq_true] at hkb
    rw [if_pos hlen] at h
    cases heq : encodePairs kvs with
    | error e => rw [heq] at h; cases h
    | ok body =>
      rw [heq] at h
      injection h with h
      rw [← h] at hf ⊢
      cases fuel with
      | zero => simp at hf
      | succ f =>
        rw [be32]
        simp only [List.cons_append, List.append_assoc, List.nil_append]
        rw [decV_obj, rdU32_comp _ hlen]
        rw [rtP kvs body heq hwp
          (fun k hk => of_decide_eq_true (hkb k hk)) VPairs.nil rest f hnd
          (fun k _ hk => by rw [VPairs.keys] at hk; cases hk)
          (by simp [be32] at hf; omega)]
        rfl
theorem rtL (l : VList) : ∀ (bs : List Nat), encodeList l = .ok bs → wfL l = true →
    ∀ (rest : List Nat) (fuel : Nat), bs.length + 1 ≤ fuel →
    decodeListN fuel l.len (bs ++ rest) = .ok (l, rest) := by
  intro bs h hw rest fuel hf
  cases l with
  | nil =>
    rw [encodeList] at h
    injection h with h
    rw [← h, VList.len, List.nil_append]
    exact decodeListN_zero fuel rest
  | cons v t =>
    rw [encodeList] at h
    cases heqv : encodeValue v with
    | error e => rw [heqv] at h; cases h
    | ok hd =>
      rw [heqv] at h
      cases heqt : encodeList t with
      | error e => rw [heqt] at h; cases h
      | ok tl =>
        rw [heqt] at h
        injection h with h
        rw [wfL, Bool.and_eq_true] at hw
        rw [← h] at hf ⊢
        cases fuel with
        | zero => omega
        | succ f =>
          rw [VList.len, decodeListN]
          rw [List.length_append] at hf
          have hp := encLen_pos v hd heqv
          rw [List.append_assoc, rtV v hd heqv hw.1 (tl ++ rest) f (by omega)]
          dsimp only []
          rw [rtL t tl heqt hw.2 rest f (by omega)]
theorem rtP (p : VPairs) : ∀ (bs : List Nat), encodePairs p = .ok bs → wfP p = true →
    (∀ k ∈ p.keys, (utf8Encode k).length < 4294967296) →
    ∀ (acc : VPairs) (rest : List Nat) (fuel : Nat), p.keys.Nodup →
    (∀ k ∈ p.keys, k ∉ acc.keys) → bs.length + 1 ≤ fuel →
    decodePairsN fuel p.len acc (bs ++ rest) = .ok (acc.append p, rest) := by
  intro bs h hw hkb acc rest fuel hnd hdisj hf
  cases p with
  | nil =>
    rw [encodePairs] at h
    injection h with h
    rw [← h, VPairs.len, List.nil_append]
    rw [decodePairsN_zero, VPairs.append_nil_right]
  | cons k v t =>
    rw [encodePairs] at h
    cases heqk : encodeStr k with
    | error e => rw [heqk] at h; cases h
    | ok kb =>
      rw [heqk] at h
      cases heqv : encodeValue v with
      | error e => rw [heqv] at h; cases h
      | ok vb =>
        rw [heqv] at h
        cases heqt : encodePairs t with
        | error e => rw [heqt] at h; cases h
        | ok tl =>
          rw [heqt] at h
          injection h with h
          rw [wfP, Bool.and_eq_true] at hw
          rw [VPairs.keys, List.nodup_cons] at hnd
          rw [← h] at hf ⊢
          cases fuel with
          | zero => omega
          | succ f =>
            rw [VPairs.len, decodePairsN]
            rw [List.length_append, List.length_append] at hf
            have hpk := encodeStr_len_pos k kb heqk
            have hpv := encLen_pos v vb heqv
            rw [List.append_assoc, List.append_assoc,
              rt_str k kb heqk (vb ++ (tl ++ rest)) f (by omega)]
            dsimp only []
            rw [rtV v vb heqv hw.1 (tl ++ rest) f (by omega)]
            dsimp only []
            rw [jsInsert_fresh acc k v (hdisj k (by rw [VPairs.keys]; exact List.mem_cons_self k t.keys))]
            rw [rtP t tl heqt hw.2
              (fun k2 hk2 => hkb k2 (by rw [VPairs.keys]; exact List.mem_cons_of_mem k hk2))
              (acc.append (.cons k v .nil)) rest f hnd.2
              (fun k2 hk2 hin => by
                rw [VPairs.keys_append] at hin
                rcases List.mem_append.mp hin with hin1 | hin2
                · exact hdisj k2 (by rw [VPairs.keys]; exact List.mem_cons_of_mem k hk2) hin1
                · rw [VPairs.keys, VPairs.keys] at hin2
                  rcases List.mem_cons.mp hin2 with h2 | h2
                  · exact hnd.1 (h2 ▸ hk2)
                  · simp at h2)
              (by omega)]
            rw [VPairs.append_assoc, VPairs.append_cons_nil]
end

theorem take8_cons (x0 x1 x2 x3 x4 x5 x6 x7 : Nat) (l : List Nat) :
    List.take 8 (x0 :: x1 :: x2 :: x3 :: x4 :: x5 :: x6 :: x7 :: l) =
      [x0, x1, x2, x3, x4, x5, x6, x7] := rfl

theorem drop8_cons (x0 x1 x2 x3 x4 x5 x6 x7 : Nat) (l : List Nat) :
    List.drop 8 (x0 :: x1 :: x2 :: x3 :: x4 :: x5 :: x6 :: x7 :: l) = l := rfl

theorem parseHeader_cons (m1 m2 ver fl l0 l1 l2 l3 : Nat) (r : List Nat) :
    parseHeader (m1 :: m2 :: ver :: fl :: l0 :: l1 :: l2 :: l3 :: r) =
      if m1 ≠ 161 ∨ m2 ≠ 20 then .error .badMagic
      else if ver ≠ 1 then .error (.badVersion ver)
      else .ok (ver, fl, rdU32 l0 l1 l2 l3) := rfl

theorem parseHeader_ok (l0 l1 l2 l3 : Nat) (r : List Nat) :
    parseHeader (161 :: 20 :: 1 :: 0 :: l0 :: l1 :: l2 :: l3 :: r) =
      .ok (1, 0, rdU32 l0 l1 l2 l3) := rfl

theorem parseHeader_ok1 (fl l0 l1 l2 l3 : Nat) (r : List Nat) :
    parseHeader (161 :: 20 :: 1 :: fl :: l0 :: l1 :: l2 :: l3 :: r) =
      .ok (1, fl, rdU32 l0 l1 l2 l3) := rfl

theorem decodePayload_encodePayload (v : Value) (bs : List Nat)
    (h : encodePayload v = .ok bs) (hw : wfV v = true) : decodePayload bs = .ok v := by
  have hrt := rtV v bs h hw [] (bs.length + 1) (by omega)
  rw [List.append_nil] at hrt
  rw [decodePayload, hrt]

/-- Claim C1 — codec round trip: for every well-formed structured value
(null, booleans, integers representable by the INT8/INT16/INT32 tags,
non-integral numbers, strings, arrays, string-keyed objects with distinct
keys, arbitrarily nested), whenever encode produces a packet, decode returns
a structurally equal value, object key order included (objects are
association lists whose order decode preserves). -/
theorem codec_round_trip (v : Value) (bs : List Nat) (hw : wfV v = true)
    (h : encode v = .ok bs) : decode bs = .ok v := by
  rw [encode] at h
  cases hp : encodePayload v with
  | error e => rw [hp] at h; cases h
  | ok payload =>
    rw [hp] at h
    dsimp only [] at h
    unfold createHeader at h
    split at h
    · cases h
    · rename_i body heq
      split at heq
      · injection heq with heq
        injection h with h
        rw [← h, ← heq]
        rw [decode, if_neg (by simp [be32])]
        rw [be32]
        simp only [List.cons_append, List.append_assoc, List.nil_append]
        rw [take8_cons, parseHeader_ok, drop8_cons, rdU32_comp _ (by assumption)]
        dsimp only []
        rw [if_neg (fun hne => hne rfl)]
        exact decodePayload_encodePayload v payload hp hw
      · cases heq

/-- Concrete nested value exercising every tag: null, both booleans, all
three integer widths (both signs), a float image (1.1), an empty and a
non-ASCII string, an empty array and an empty nested object. -/
def c1Witness : Value :=
  .vobj (.cons [('k'), ('é')]
    (.varr (.cons .vnull (.cons (.vbool true) (.cons (.vbool false)
      (.cons (.vint 127) (.cons (.vint (-128)) (.cons (.vint 128)
      (.cons (.vint (-32768)) (.cons (.vint 32768) (.cons (.vint (-2147483648))
      (.cons (.vfloat [63, 241, 153, 153, 153, 153, 153, 154])
      (.cons (.vstr []) (.cons (.varr .nil) .nil)))))))))))))
    (.cons [('m')] (.vobj .nil) .nil))

/-- Claim C1 witness: the concrete value encodes and decodes back to
itself. -/
theorem codec_round_trip_witness :
    wfV c1Witness = true ∧
      decode ((encode c1Witness).toOption.getD []) = .ok c1Witness :=
  ⟨by decide, codec_round_trip c1Witness ((encode c1Witness).toOption.getD []) (by decide) rfl⟩

/-- Claim C2 — integer tag minimality: encodeValue picks INT8 (tag 0x02,
1-byte payload) on [-128, 127], INT16 (tag 0x03, 2-byte payload) on the rest
of [-32768, 32767], INT32 (tag 0x04, 4-byte payload) on the rest of the
signed 32-bit range, FLOAT64 (tag 0x06, 8-byte image) for every
non-integral number, and in particular 127 encodes as INT8, 128 and 32767
as INT16, and 32768 as INT32. -/
theorem int_tag_minimality :
    (∀ n : Int, -128 ≤ n ∧ n ≤ 127 → encodeValue (.vint n) = .ok [2, toU8 n]) ∧
    (∀ n : Int, (-32768 ≤ n ∧ n < -128) ∨ (127 < n ∧ n ≤ 32767) →
      encodeValue (.vint n) = .ok (3 :: be16i n) ∧ (be16i n).length = 2) ∧
    (∀ n : Int, (-2147483648 ≤ n ∧ n < -32768) ∨ (32767 < n ∧ n ≤ 2147483647) →
      encodeValue (.vint n) = .ok (4 :: be32i n) ∧ (be32i n).length = 4) ∧
    (∀ bits : List Nat, encodeValue (.vfloat bits) = .ok (6 :: bits)) ∧
    encodeValue (.vint 127) = .ok [2, 127] ∧
    encodeValue (.vint 128) = .ok [3, 0, 128] ∧
    encodeValue (.vint 32767) = .ok [3, 127, 255] ∧
    encodeValue (.vint 32768) = .ok [4, 0, 0, 128, 0] := by
  refine ⟨?_, ?_, ?_, ?_, rfl, rfl, rfl, rfl⟩
  · intro n hn
    rw [encodeValue, if_pos hn]
  · intro n hn
    exact ⟨by rw [encodeValue, if_neg (by omega), if_pos (by omega)], by simp [be16i]⟩
  · intro n hn
    exact ⟨by rw [encodeValue, if_neg (by omega), if_neg (by omega), if_pos (by omega)],
      by simp [be32i]⟩
  · intro bits
    rw [encodeValue]

/-- Claim C2 witness: the theorem applied at -5 (INT8), 1000 (INT16),
-100000 (INT32) and a concrete float image. -/
theorem int_tag_minimality_witness :
    encodeValue (.vint (-5)) = .ok [2, toU8 (-5)] ∧
    (encodeValue (.vint 1000) = .ok (3 :: be16i 1000) ∧ (be16i 1000).length = 2) ∧
    (encodeValue (.vint (-100000)) = .ok (4 :: be32i (-100000)) ∧
      (be32i (-100000)).length = 4) ∧
    encodeValue (.vfloat [1, 2, 3, 4, 5, 6, 7, 8]) = .ok (6 :: [1, 2, 3, 4, 5, 6, 7, 8]) :=
  ⟨int_tag_minimality.1 (-5) (by decide),
   int_tag_minimality.2.1 1000 (by decide),
   int_tag_minimality.2.2.1 (-100000) (by decide),
   int_tag_minimality.2.2.2.1 [1, 2, 3, 4, 5, 6, 7, 8]⟩

theorem list_ge8 (l : List Nat) (h : 8 ≤ l.length) :
    ∃ x0 x1 x2 x3 x4 x5 x6 x7 r,
      l = x0 :: x1 :: x2 :: x3 :: x4 :: x5 :: x6 :: x7 :: r := by
  rcases l with _ | ⟨x0, l⟩
  · simp at h
  rcases l with _ | ⟨x1, l⟩
  · simp at h
  rcases l with _ | ⟨x2, l⟩
  · simp at h
  rcases l with _ | ⟨x3, l⟩
  · simp at h
  rcases l with _ | ⟨x4, l⟩
  · simp at h
  rcases l with _ | ⟨x5, l⟩
  · simp at h
  rcases l with _ | ⟨x6, l⟩
  · simp at h
  rcases l with _ | ⟨x7, l⟩
  · simp at h
  exact ⟨x0, x1, x2, x3, x4, x5, x6, x7, l, rfl⟩

/-- Claim C3 — header validation, in order: a buffer shorter than the 8-byte
header fails first; then wrong magic bytes; then an unsupported version
byte; then a declared payload length different from the bytes actually
following the header. Each failure is an error return: decodePayload is
never reached. -/
theorem header_validation :
    (∀ bs : List Nat, bs.length < 8 → decode bs = .error .tooShort) ∧
    (∀ bs : List Nat, 8 ≤ bs.length → ¬(bs.getD 0 0 = 161 ∧ bs.getD 1 0 = 20) →
      decode bs = .error .badMagic) ∧
    (∀ bs : List Nat, 8 ≤ bs.length → bs.getD 0 0 = 161 → bs.getD 1 0 = 20 →
      bs.getD 2 0 ≠ 1 → decode bs = .error (.badVersion (bs.getD 2 0))) ∧
    (∀ bs : List Nat, 8 ≤ bs.length → bs.getD 0 0 = 161 → bs.getD 1 0 = 20 →
      bs.getD 2 0 = 1 →
      bs.length - 8 ≠ rdU32 (bs.getD 4 0) (bs.getD 5 0) (bs.getD 6 0) (bs.getD 7 0) →
      decode bs = .error .lenMismatch) := by
  refine ⟨?_, ?_, ?_, ?_⟩
  · intro bs h
    rw [decode, if_pos h]
  · intro bs h hm
    obtain ⟨x0, x1, x2, x3, x4, x5, x6, x7, r, rfl⟩ := list_ge8 bs h
    simp only [List.getD_cons_zero, List.getD_cons_succ] at hm
    rw [decode, if_neg (by simp), take8_cons, parseHeader_cons, if_pos (by omega)]
  · intro bs h hm1 hm2 hv
    obtain ⟨x0, x1, x2, x3, x4, x5, x6, x7, r, rfl⟩ := list_ge8 bs h
    simp only [List.getD_cons_zero, List.getD_cons_succ] at hm1 hm2 hv ⊢
    rw [decode, if_neg (by simp), take8_cons, parseHeader_cons, if_neg (by omega),
      if_pos hv]
  · intro bs h hm1 hm2 hv hl
    obtain ⟨x0, x1, x2, x3, x4, x5, x6, x7, r, rfl⟩ := list_ge8 bs h
    simp only [List.getD_cons_zero, List.getD_cons_succ] at hm1 hm2 hv hl
    simp only [List.length_cons] at hl
    subst hm1
    subst hm2
    subst hv
    rw [decode, if_neg (by simp), take8_cons, parseHeader_ok1, drop8_cons]
    dsimp only []
    rw [if_pos (by omega)]

/-- Claim C3 witness: the theorem applied to a short buffer, a wrong-magic
buffer, a version-9 buffer, and a length-mismatched buffer. -/
theorem header_validation_witness :
    decode [161] = .error .tooShort ∧
    decode [0, 20, 1, 0, 0, 0, 0, 0] = .error .badMagic ∧
    decode [161, 20, 9, 0, 0, 0, 0, 0] = .error (.badVersion 9) ∧
    decode [161, 20, 1, 0, 0, 0, 0, 5] = .error .lenMismatch :=
  ⟨header_validation.1 [161] (by decide),
   header_validation.2.1 [0, 20, 1, 0, 0, 0, 0, 0] (by decide) (by decide),
   header_validation.2.2.1 [161, 20, 9, 0, 0, 0, 0, 0] (by decide) (by decide) (by decide)
     (by decide),
   header_validation.2.2.2 [161, 20, 1, 0, 0, 0, 0, 5] (by decide) (by decide) (by decide)
     (by decide) (by decide)⟩

/-- Claim C10 — the INT32 write rejects integral numbers outside the signed
32-bit range: encode throws there instead of producing a packet, and
succeeds on every integer inside the range. -/
theorem int32_overflow_rejected :
    (∀ n : Int, n < -2147483648 ∨ 2147483647 < n → encode (.vint n) = .error .intRange) ∧
    (∀ n : Int, -2147483648 ≤ n ∧ n ≤ 2147483647 → ∃ bs, encode (.vint n) = .ok bs) := by
  constructor
  · intro n hn
    rw [encode, encodePayload, encodeValue,
      if_neg (by omega), if_neg (by omega), if_neg (by omega)]
  · intro n hn
    by_cases h8 : -128 ≤ n ∧ n ≤ 127
    · have hp : encodePayload (.vint n) = .ok [2, toU8 n] := by
        rw [encodePayload, encodeValue, if_pos h8]
      exact ⟨_, by
        rw [encode, hp]
        dsimp only []
        unfold createHeader
        rw [if_pos (by norm_num)]⟩
    · by_cases h16 : -32768 ≤ n ∧ n ≤ 32767
      · have hp : encodePayload (.vint n) = .ok (3 :: be16i n) := by
          rw [encodePayload, encodeValue, if_neg h8, if_pos h16]
        exact ⟨_, by
          rw [encode, hp]
          dsimp only []
          unfold createHeader
          rw [if_pos (by simp [be16i])]⟩
      · have hp : encodePayload (.vint n) = .ok (4 :: be32i n) := by
          rw [encodePayload, encodeValue, if_neg h8, if_neg h16, if_pos hn]
        exact ⟨_, by
          rw [encode, hp]
          dsimp only []
          unfold createHeader
          rw [if_pos (by simp [be32i])]⟩

/-- Claim C10 witness: 2147483648 is rejected, 2147483647 still encodes. -/
theorem int32_overflow_rejected_witness :
    encode (.vint 2147483648) = .error .intRange ∧
    ∃ bs, encode (.vint 2147483647) = .ok bs :=
  ⟨int32_overflow_rejected.1 2147483648 (by decide),
   int32_overflow_rejected.2 2147483647 (by decide)⟩

/-! ### Command packets (A114Protocol.createCommand / parseCommand) -/

/-- The A114 command table, in source order: (name, byte code). -/
def COMMANDS : List (String × Nat) :=
  [("INIT", 1), ("TERM", 2), ("ACK", 3), ("NACK", 4),
   ("SEND", 16), ("RECV", 17), ("PUSH", 18), ("PULL", 19),
   ("STORE", 32), ("LOAD", 33), ("CLEAR", 34), ("SYNC", 35),
   ("EXEC", 48), ("EVAL", 49), ("COMP", 50), ("OPTIM", 51),
   ("STAT", 64), ("CONF", 65), ("DIAG", 66), ("RESET", 67)]

/-- Is the 8-byte image that of IEEE-754 zero (either sign)? -/
def isZeroBits (bits : List Nat) : Bool :=
  bits == [0, 0, 0, 0, 0, 0, 0, 0] || bits == [128, 0, 0, 0, 0, 0, 0, 0]

/-- Is the 8-byte image an IEEE-754 NaN (exponent all ones, mantissa
nonzero)? -/
def isNaNBits (bits : List Nat) : Bool :=
  match bits with
  | b0 :: b1 :: rest =>
    b0 % 128 == 127 && b1 / 16 == 15 && !(b1 % 16 == 0 && rest == [0, 0, 0, 0, 0, 0])
  | _ => false

/-- JavaScript truthiness of a structured value, as the conditional
expression data ? ... : ... in createCommand evaluates it: null, false, 0,
NaN and the empty string are falsy; arrays and objects are always truthy. -/
def truthy : Value → Bool
  | .vnull => false
  | .vbool b => b
  | .vint n => decide (n ≠ 0)
  | .vfloat bits => !(isZeroBits bits || isNaNBits bits)
  | .vstr s => decide (s ≠ [])
  | .varr _ => true
  | .vobj _ => true

/-- A114Protocol.createCommand: one command-code byte followed by the
encoded payload; a falsy data argument (including false, 0 and the empty
string) takes the no-data branch of the source conditional. -/
def createCommand (command : String) (data : Option Value) : Except PErr (List Nat) :=
  match COMMANDS.lookup command with
  | none => .error .unknownCommand
  | some code =>
    match data with
    | some d =>
      if truthy d then
        match encodePayload d with
        | .error e => .error e
        | .ok dataBuf => .ok (code :: dataBuf)
      else .ok [code]
    | none => .ok [code]

/-- A114Protocol.parseCommand: empty-buffer check, reverse table lookup of
the leading byte (first matching entry), then payload decode when more
bytes follow. -/
def parseCommand (buffer : List Nat) : Except PErr (String × Option Value) :=
  match buffer with
  | [] => .error .emptyPacket
  | code :: rest =>
    match COMMANDS.find? (fun p => p.2 == code) with
    | none => .error .unknownCommandCode
    | some p =>
      if 0 < rest.length then
        match decodePayload rest with
        | .error e => .error e
        | .ok d => .ok (p.1, some d)
      else .ok (p.1, none)

theorem lookup_mem (l : List (String × Nat)) (a : String) (b : Nat) :
    l.lookup a = some b → (a, b) ∈ l := by
  induction l with
  | nil => intro h; simp [List.lookup] at h
  | cons p t ih =>
    intro h
    obtain ⟨k, v⟩ := p
    rw [List.lookup] at h
    cases hak : a == k with
    | true =>
      rw [hak] at h
      injection h with h
      have hk : a = k := eq_of_beq hak
      rw [hk, ← h]
      exact List.mem_cons_self _ _
    | false =>
      rw [hak] at h
      exact List.mem_cons_of_mem _ (ih h)

theorem commands_find_code : ∀ p ∈ COMMANDS, COMMANDS.find? (fun q => q.2 == p.2) = some p := by
  decide

/-- Claim C4, amended — command round trip with the truthiness caveat: for
every registered command name, parseCommand inverts createCommand for every
well-formed truthy payload and for the no-data call; a falsy payload (false,
0, the empty string, null) takes the no-data branch of createCommand, so
parseCommand reports no data for it; an unregistered name fails with
UNKNOWN_COMMAND, the empty buffer with EMPTY_PACKET, and a leading byte
matching no table entry with UNKNOWN_COMMAND_CODE. -/
theorem command_round_trip :
    (∀ (name : String) (code : Nat) (d : Value) (bs : List Nat),
      COMMANDS.lookup name = some code → wfV d = true → truthy d = true →
      createCommand name (some d) = .ok bs → parseCommand bs = .ok (name, some d)) ∧
    (∀ (name : String) (code : Nat), COMMANDS.lookup name = some code →
      createCommand name none = .ok [code] ∧ parseCommand [code] = .ok (name, none)) ∧
    (∀ (name : String) (code : Nat) (d : Value), COMMANDS.lookup name = some code →
      truthy d = false →
      createCommand name (some d) = .ok [code] ∧ parseCommand [code] = .ok (name, none)) ∧
    (∀ (name : String) (d : Option Value), COMMANDS.lookup name = none →
      createCommand name d = .error .unknownCommand) ∧
    parseCommand [] = .error .emptyPacket ∧
    (∀ (code : Nat) (rest : List Nat), COMMANDS.find? (fun p => p.2 == code) = none →
      parseCommand (code :: rest) = .error .unknownCommandCode) := by
  have hparse1 : ∀ (name : String) (code : Nat), COMMANDS.lookup name = some code →
      parseCommand [code] = .ok (name, none) := by
    intro name code hc
    have hfind := commands_find_code (name, code) (lookup_mem COMMANDS name code hc)
    rw [parseCommand, hfind]
    dsimp only []
    rw [if_neg (by simp)]
  refine ⟨?_, ?_, ?_, ?_, rfl, ?_⟩
  · intro name code d bs hc hw ht h
    rw [createCommand, hc] at h
    dsimp only [] at h
    rw [if_pos ht] at h
    cases hp : encodePayload d with
    | error e => rw [hp] at h; cases h
    | ok db =>
      rw [hp] at h
      injection h with h
      have hfind := commands_find_code (name, code) (lookup_mem COMMANDS name code hc)
      rw [← h, parseCommand, hfind]
      dsimp only []
      rw [if_pos (by have := encLen_pos d db hp; omega)]
      rw [decodePayload_encodePayload d db hp hw]
  · intro name code hc
    refine ⟨?_, hparse1 name code hc⟩
    rw [createCommand, hc]
  · intro name code d hc ht
    refine ⟨?_, hparse1 name code hc⟩
    rw [createCommand, hc]
    dsimp only []
    rw [if_neg (by rw [ht]; exact Bool.false_ne_true)]
  · intro name d hc
    rw [createCommand, hc]
  · intro code rest hfind
    rw [parseCommand, hfind]

/-- Claim C4 counterexample: the claim as stated fails for falsy payloads —
createCommand treats the boolean false (and 0, and the empty string) as
absent data, so parseCommand(createCommand(ACK, false)) reports no data
rather than a value equal to false. -/
theorem command_round_trip_counterexample :
    createCommand ("ACK") (some (.vbool false)) = .ok [3] ∧
    parseCommand [3] = .ok (("ACK"), none) ∧
    (none : Option Value) ≠ some (.vbool false) :=
  ⟨rfl, rfl, by simp⟩

/-- Claim C4 witness: the amended theorem applied to SEND with a truthy
payload, to ACK with no data, to ACK with the falsy payload 0, to an
unregistered name, and to an unknown command code. -/
theorem command_round_trip_witness :
    parseCommand ((createCommand ("SEND") (some (.vint 7))).toOption.getD []) =
      .ok (("SEND"), some (.vint 7)) ∧
    (createCommand ("ACK") none = .ok [3] ∧ parseCommand [3] = .ok (("ACK"), none)) ∧
    (createCommand ("ACK") (some (.vint 0)) = .ok [3] ∧
      parseCommand [3] = .ok (("ACK"), none)) ∧
    createCommand ("NOPE") none = .error .unknownCommand ∧
    parseCommand [255] = .error .unknownCommandCode :=
  ⟨command_round_trip.1 ("SEND") 16 (.vint 7) _ (by decide) (by decide) (by decide) rfl,
   command_round_trip.2.1 ("ACK") 3 (by decide),
   command_round_trip.2.2.1 ("ACK") 3 (.vint 0) (by decide) (by decide),
   command_round_trip.2.2.2.1 ("NOPE") none (by decide),
   command_round_trip.2.2.2.2.2 255 [] (by decide)⟩

/-! ### Cache manager (src/cache/CacheManager.ts over the npm lru-cache)

CacheManager wraps an LRUCache with options max, ttl, updateAgeOnGet true,
allowStale false, and a dispose callback that increments the evictions stat.
lru-cache invokes dispose on every removal it performs — capacity eviction,
lazy expiry, explicit delete and overwrite of an existing key — so every
such removal bumps the stat. The store is modelled as an association list
in recency order, least recently used first; an entry also carries the
internal TTL clock start, which updateAgeOnGet resets on every hit. -/

inductive Priority where
  | LOW
  | NORMAL
  | HIGH
  | CRITICAL
deriving DecidableEq

/-- The CacheEntry record CacheManager.set builds and stores as the cached
value (src/types: key, value, timestamp, ttl, accessCount, priority). -/
structure CacheEntry (α : Type) where
  key : String
  value : α
  timestamp : Nat
  ttl : Nat
  accessCount : Nat
  priority : Priority
deriving DecidableEq

/-- One lru-cache slot: the stored CacheEntry plus the internal per-entry
TTL state (start time and ttl handed over by set). -/
structure LruSlot (α : Type) where
  entry : CacheEntry α
  start : Nat
  ttl : Nat
deriving DecidableEq

/-- CacheManager state: the bounded store in recency order (least recently
used first) and the stats counters. -/
structure CacheManager (α : Type) where
  maxSize : Nat
  entries : List (String × LruSlot α)
  hits : Nat
  misses : Nat
  sets : Nat
  evictions : Nat
deriving DecidableEq

/-- The constructor: empty cache with the given capacity and zeroed stats
(maxSize defaults to 1000 in the source; the default lru-cache ttl of the
maxAge argument is never consulted because set always passes a ttl). -/
def CacheManager.new (α : Type) (maxSize : Nat) : CacheManager α :=
  ⟨maxSize, [], 0, 0, 0, 0⟩

/-- Is a slot stale at time now? lru-cache treats an entry as stale when its
age exceeds its ttl (a zero ttl never expires). -/
def isStale (s : LruSlot α) (now : Nat) : Bool :=
  decide (s.ttl ≠ 0) && decide (s.start + s.ttl < now)

/-- lru-cache set: an existing key is overwritten and moved to most recent,
disposing the old value (reason set); a new key at capacity first evicts the
least recently used entry (reason evict); the dispose callback increments
evictions in both cases. -/
def CacheManager.rawSet (c : CacheManager α) (k : String) (s : LruSlot α) :
    CacheManager α :=
  if c.entries.any (fun p => p.1 == k) then
    { c with entries := c.entries.filter (fun p => p.1 != k) ++ [(k, s)],
             evictions := c.evictions + 1 }
  else if c.maxSize ≤ c.entries.length then
    { c with entries := c.entries.tail ++ [(k, s)],
             evictions := c.evictions + 1 }
  else
    { c with entries := c.entries ++ [(k, s)] }

/-- CacheManager.set: build the CacheEntry (timestamp now, ttl defaulted by
the JavaScript ttl || 300000, accessCount 0), store it with that ttl, and
count the set. -/
def CacheManager.set (c : CacheManager α) (k : String) (v : α) (ttl : Option Nat)
    (priority : Priority) (now : Nat) : CacheManager α :=
  let t : Nat := match ttl with
    | some t0 => if t0 == 0 then 300000 else t0
    | none => 300000
  let c1 := c.rawSet k ⟨⟨k, v, now, t, 0, priority⟩, now, t⟩
  { c1 with sets := c1.sets + 1 }

/-- CacheManager.get: a hit increments the entry access count and the hits
stat, and (updateAgeOnGet) restarts the TTL clock and refreshes recency; a
stale entry is purged (dispose fires, reason expire) and counts as a miss;
an absent key counts as a miss. -/
def CacheManager.get (c : CacheManager α) (k : String) (now : Nat) :
    CacheManager α × Option α :=
  match c.entries.find? (fun p => p.1 == k) with
  | none => ({ c with misses := c.misses + 1 }, none)
  | some p =>
    if isStale p.2 now then
      ({ c with entries := c.entries.filter (fun q => q.1 != k),
                evictions := c.evictions + 1,
                misses := c.misses + 1 }, none)
    else
      ({ c with entries := c.entries.filter (fun q => q.1 != k) ++
                  [(k, ⟨{ p.2.entry with accessCount := p.2.entry.accessCount + 1 },
                        now, p.2.ttl⟩)],
                hits := c.hits + 1 }, some p.2.entry.value)

/-- CacheManager.has: present and not stale; no mutation. -/
def CacheManager.hasKey (c : CacheManager α) (k : String) (now : Nat) : Bool :=
  match c.entries.find? (fun p => p.1 == k) with
  | none => false
  | some p => !isStale p.2 now

/-- CacheManager.delete: lru-cache removes the entry and invokes dispose on
it (reason delete), so the evictions stat is incremented; returns whether
the key was present. -/
def CacheManager.delete (c : CacheManager α) (k : String) : CacheManager α × Bool :=
  if c.entries.any (fun p => p.1 == k) then
    ({ c with entries := c.entries.filter (fun p => p.1 != k),
              evictions := c.evictions + 1 }, true)
  else (c, false)

/-- The optimize candidate test: LOW priority, accessCount below 2, and age
beyond half the ttl. The source compares (now - timestamp) > ttl / 2 with
exact rational division; over integers that is ttl < 2 * (now - timestamp),
computed in Int to keep the subtraction exact. -/
def optCond (s : LruSlot α) (now : Nat) : Bool :=
  s.entry.priority == .LOW && decide (s.entry.accessCount < 2) &&
    decide ((s.entry.ttl : Int) < 2 * ((now : Int) - (s.entry.timestamp : Int)))

/-- The optimize sweep predicate: Array.from(cache.entries()) only yields
entries the lru-cache entries() iterator exposes, and with allowStale false
that iterator skips stale entries — so a candidate must be non-stale AND
pass the source's filter. -/
def sweepCond (s : LruSlot α) (now : Nat) : Bool :=
  !isStale s now && optCond s now

/-- CacheManager.optimize: enumerate the entries visible to entries() (the
non-stale ones), filter them with the candidate test to collect the keys,
then delete each via cache.delete (whose dispose increments evictions) and
additionally increment the evictions stat once per candidate, as the source
loop does. -/
def CacheManager.optimize (c : CacheManager α) (now : Nat) : CacheManager α :=
  let candidates := (c.entries.filter (fun p => sweepCond p.2 now)).map (fun p => p.1)
  candidates.foldl (fun acc k =>
    let acc1 := (acc.delete k).1
    { acc1 with evictions := acc1.evictions + 1 }) c

/-! ### Cache lemmas -/

theorem any_key_false {β : Type} (l : List (String × β)) (k : String)
    (h : k ∉ l.map Prod.fst) : l.any (fun p => p.1 == k) = false := by
  rw [List.any_eq_false]
  intro p hp hbeq
  exact h (eq_of_beq hbeq ▸ List.mem_map_of_mem Prod.fst hp)

theorem filter_keep {β : Type} (l : List (String × β)) (k : String)
    (h : k ∉ l.map Prod.fst) : l.filter (fun p => p.1 != k) = l := by
  rw [List.filter_eq_self]
  intro p hp
  rw [bne_iff_ne]
  intro he
  exact h (he ▸ List.mem_map_of_mem Prod.fst hp)

/-- The slot a fresh set with no explicit ttl stores. -/
def freshSlot (α : Type) (k : String) (v : α) (pr : Priority) (now : Nat) : LruSlot α :=
  ⟨⟨k, v, now, 300000, 0, pr⟩, now, 300000⟩

theorem set_fresh (c : CacheManager α) (k : String) (v : α) (pr : Priority) (now : Nat)
    (hk : k ∉ c.entries.map Prod.fst) (hcap : c.entries.length < c.maxSize) :
    c.set k v none pr now =
      { c with entries := c.entries ++ [(k, freshSlot α k v pr now)],
               sets := c.sets + 1 } := by
  rw [CacheManager.set]
  rw [CacheManager.rawSet,
    if_neg (by rw [any_key_false _ _ hk]; exact Bool.false_ne_true),
    if_neg (by omega)]
  rfl

theorem fill_fresh {α : Type} : ∀ (ks : List String) (c : CacheManager α) (v : α)
    (pr : Priority) (now : Nat), ks.Nodup →
    (∀ k ∈ ks, k ∉ c.entries.map Prod.fst) →
    c.entries.length + ks.length ≤ c.maxSize →
    ks.foldl (fun acc k => acc.set k v none pr now) c =
      { c with entries := c.entries ++ ks.map (fun k => (k, freshSlot α k v pr now)),
               sets := c.sets + ks.length } := by
  intro ks
  induction ks with
  | nil =>
    intro c v pr now _ _ _
    simp
  | cons k ks ih =>
    intro c v pr now hnd hfresh hcap
    rw [List.nodup_cons] at hnd
    rw [List.foldl_cons,
      set_fresh c k v pr now (hfresh k (List.mem_cons_self k ks)) (by simp at hcap; omega)]
    rw [ih _ v pr now hnd.2 ?fresh ?cap]
    case fresh =>
      intro k2 hk2
      simp only [List.map_append, List.map_cons, List.map_nil, List.mem_append,
        List.mem_cons]
      intro hmem
      rcases hmem with h1 | h2 | h3
      · exact hfresh k2 (List.mem_cons_of_mem k hk2) h1
      · exact hnd.1 (h2 ▸ hk2)
      · simp at h3
    case cap =>
      simp at hcap ⊢
      omega
    simp [List.append_assoc]
    omega

theorem get_expired (c : CacheManager α) (k : String) (now : Nat) (p : String × LruSlot α)
    (hf : c.entries.find? (fun q => q.1 == k) = some p) (hs : isStale p.2 now = true) :
    c.get k now = ({ c with entries := c.entries.filter (fun q => q.1 != k),
                            evictions := c.evictions + 1,
                            misses := c.misses + 1 }, none) := by
  rw [CacheManager.get, hf]
  dsimp only []
  rw [if_pos hs]

theorem delete_present (c : CacheManager α) (k : String)
    (h : c.entries.any (fun p => p.1 == k) = true) :
    c.delete k = ({ c with entries := c.entries.filter (fun p => p.1 != k),
                           evictions := c.evictions + 1 }, true) := by
  rw [CacheManager.delete, if_pos h]

theorem delete_absent (c : CacheManager α) (k : String)
    (h : c.entries.any (fun p => p.1 == k) = false) :
    c.delete k = (c, false) := by
  rw [CacheManager.delete, if_neg (by rw [h]; exact Bool.false_ne_true)]

/-- Claim C5, amended — eviction accounting: (a) after inserting N+1 distinct
fresh keys into a capacity-N cache with no intervening reads, exactly one
capacity eviction occurs, removing the first-inserted key (the surviving
keys are the later N, in order) and evictions rises from 0 to exactly 1;
(b) a lazy-expiry removal on get increments evictions exactly once for the
one removed entry; (c) contrary to the claim as stated, an explicit
delete(key) of a present key also increments evictions exactly once,
because the dispose callback that counts evictions runs on every lru-cache
removal, delete included; a delete of an absent key changes nothing. -/
theorem eviction_accounting {α : Type} :
    (∀ (N : Nat) (ks : List String) (v : α) (pr : Priority) (now : Nat)
      (c : CacheManager α), 1 ≤ N → ks.length = N + 1 → ks.Nodup →
      c = ks.foldl (fun acc k => acc.set k v none pr now) (CacheManager.new α N) →
      c.evictions = 1 ∧ c.entries.map Prod.fst = ks.tail ∧ c.sets = N + 1) ∧
    (∀ (c : CacheManager α) (k : String) (now : Nat) (p : String × LruSlot α),
      c.entries.find? (fun q => q.1 == k) = some p → isStale p.2 now = true →
      ((c.get k now).1.evictions = c.evictions + 1 ∧
        (c.get k now).1.misses = c.misses + 1 ∧ (c.get k now).2 = none)) ∧
    (∀ (c : CacheManager α) (k : String),
      c.entries.any (fun p => p.1 == k) = true →
      (c.delete k).1.evictions = c.evictions + 1 ∧ (c.delete k).2 = true) ∧
    (∀ (c : CacheManager α) (k : String),
      c.entries.any (fun p => p.1 == k) = false → c.delete k = (c, false)) := by
  refine ⟨?_, ?_, ?_, ?_⟩
  · intro N ks v pr now c hN hlen hnd hc
    have hne : ks ≠ [] := by
      intro h
      rw [h] at hlen
      simp at hlen
    have hks := List.dropLast_append_getLast hne
    obtain ⟨ks0, kl, hsplit, hlast⟩ :
        ∃ ks0 kl, ks = ks0 ++ [kl] ∧ ks0 = ks.dropLast :=
      ⟨ks.dropLast, ks.getLast hne, hks.symm, rfl⟩
    have hlen0 : ks0.length = N := by
      rw [hlast, List.length_dropLast, hlen]
      omega
    rw [hsplit] at hnd
    rw [List.nodup_append] at hnd
    obtain ⟨hnd0, _, hdisj⟩ := hnd
    have hklnotin : kl ∉ ks0 := by
      intro hmem
      exact hdisj hmem (List.mem_singleton_self kl)
    rw [hsplit, List.foldl_append, List.foldl_cons, List.foldl_nil] at hc
    rw [fill_fresh ks0 (CacheManager.new α N) v pr now hnd0
      (by intro k2 _; rw [CacheManager.new]; simp)
      (by rw [CacheManager.new]; simp; omega)] at hc
    rw [CacheManager.set, CacheManager.rawSet] at hc
    rw [if_neg (by
      rw [any_key_false]
      · exact Bool.false_ne_true
      · simp only [CacheManager.new, List.nil_append, List.map_map]
        intro hmem
        simp only [List.mem_map, Function.comp] at hmem
        obtain ⟨k2, hk2, hkeq⟩ := hmem
        exact hklnotin (hkeq ▸ hk2))] at hc
    rw [if_pos (by rw [CacheManager.new]; simp [hlen0])] at hc
    subst hc
    refine ⟨rfl, ?_, by simp [CacheManager.new, hlen0]⟩
    rw [CacheManager.new]
    simp only [List.nil_append]
    cases hks0 : ks0 with
    | nil =>
      rw [hks0] at hlen0
      simp at hlen0
      omega
    | cons k0 kt =>
      rw [hsplit, hks0]
      simp only [List.map_cons, List.map_map, List.tail_cons, List.cons_append,
        List.map_append, List.map_nil]
      have hid : (Prod.fst ∘ fun k : String => (k, freshSlot α k v pr now)) =
          fun k : String => k := by
        funext k2
        rfl
      rw [hid]
      simp
  · intro c k now p hf hs
    rw [get_expired c k now p hf hs]
    exact ⟨rfl, rfl, rfl⟩
  · intro c k h
    rw [delete_present c k h]
    exact ⟨rfl, rfl⟩
  · intro c k h
    exact delete_absent c k h

theorem eq_of_fst_eq_of_nodup {β : Type} : ∀ (l : List (String × β)),
    (l.map Prod.fst).Nodup → ∀ p q : String × β, p ∈ l → q ∈ l → p.1 = q.1 → p = q := by
  intro l
  induction l with
  | nil =>
    intro _ p q hp
    simp at hp
  | cons a t ih =>
    intro hnd p q hp hq heq
    rw [List.map_cons, List.nodup_cons] at hnd
    rcases List.mem_cons.mp hp with hp1 | hp2 <;> rcases List.mem_cons.mp hq with hq1 | hq2
    · rw [hp1, hq1]
    · exfalso
      apply hnd.1
      rw [hp1] at heq
      exact heq ▸ List.mem_map_of_mem Prod.fst hq2
    · exfalso
      apply hnd.1
      rw [hq1] at heq
      exact heq.symm ▸ List.mem_map_of_mem Prod.fst hp2
    · exact ih hnd.2 p q hp2 hq2 heq

theorem optimize_fold {α : Type} : ∀ (ks : List String) (c : CacheManager α),
    ks.Nodup → (∀ k ∈ ks, k ∈ c.entries.map Prod.fst) →
    ks.foldl (fun acc k =>
      let acc1 := (acc.delete k).1
      { acc1 with evictions := acc1.evictions + 1 }) c =
    { c with entries := c.entries.filter (fun p => !(decide (p.1 ∈ ks))),
             evictions := c.evictions + 2 * ks.length } := by
  intro ks
  induction ks with
  | nil =>
    intro c _ _
    simp
  | cons k ks ih =>
    intro c hnd hpres
    rw [List.nodup_cons] at hnd
    rw [List.foldl_cons]
    have hany : c.entries.any (fun p => p.1 == k) = true := by
      rw [List.any_eq_true]
      obtain ⟨p, hp, hfst⟩ := List.mem_map.mp (hpres k (List.mem_cons_self k ks))
      exact ⟨p, hp, by rw [hfst]; exact beq_self_eq_true k⟩
    dsimp only []
    rw [delete_present c k hany]
    dsimp only []
    rw [ih _ hnd.2 ?pres]
    case pres =>
      intro k2 hk2
      obtain ⟨p, hp, hfst⟩ := List.mem_map.mp (hpres k2 (List.mem_cons_of_mem k hk2))
      refine hfst ▸ List.mem_map_of_mem Prod.fst ?_
      rw [List.mem_filter]
      refine ⟨hp, ?_⟩
      rw [bne_iff_ne, hfst]
      intro he
      exact hnd.1 (he ▸ hk2)
    rw [List.filter_filter]
    have hpt : c.entries.filter (fun a => !(decide (a.1 ∈ ks)) && (a.1 != k)) =
        c.entries.filter (fun p => !(decide (p.1 ∈ k :: ks))) := by
      apply List.filter_congr
      intro p _
      by_cases h1 : p.1 = k <;> by_cases h2 : p.1 ∈ ks <;>
        simp [h1, h2, List.mem_cons]
    rw [hpt]
    simp only [List.length_cons, CacheManager.mk.injEq, and_true, true_and]
    omega

/-- Claim C6, amended — optimization sweep: optimize removes exactly those
entries that are non-stale (age at most their ttl, since the lru-cache
entries() iterator it enumerates skips stale entries when allowStale is
false) AND have LOW priority, accessCount strictly below 2 and age beyond
half their ttl, leaving every other entry unchanged — in particular a stale
qualifying entry is left in place and costs no eviction; and contrary to
the claim as stated, the removals DO count toward the evictions stat —
twice per removed entry: once through the dispose callback that runs on
cache.delete, and once through the explicit evictions increment in the
optimize loop. Hits, misses and sets are untouched. -/
theorem optimize_sweep {α : Type} (c : CacheManager α) (now : Nat)
    (hnd : (c.entries.map Prod.fst).Nodup) :
    (c.optimize now).entries = c.entries.filter (fun p => !sweepCond p.2 now) ∧
    (c.optimize now).evictions =
      c.evictions + 2 * (c.entries.filter (fun p => sweepCond p.2 now)).length ∧
    (c.optimize now).hits = c.hits ∧ (c.optimize now).misses = c.misses ∧
    (c.optimize now).sets = c.sets ∧ (c.optimize now).maxSize = c.maxSize := by
  rw [CacheManager.optimize]
  rw [optimize_fold _ c ?nd ?pres]
  case nd =>
    exact hnd.sublist ((List.filter_sublist c.entries).map Prod.fst)
  case pres =>
    intro k hk
    obtain ⟨p, hp, hfst⟩ := List.mem_map.mp hk
    exact hfst ▸ List.mem_map_of_mem Prod.fst (List.mem_of_mem_filter hp)
  have hfe : c.entries.filter
      (fun p => !(decide (p.1 ∈ (c.entries.filter (fun q => sweepCond q.2 now)).map Prod.fst))) =
      c.entries.filter (fun p => !sweepCond p.2 now) := by
    apply List.filter_congr
    intro p hp
    have : (decide (p.1 ∈ (c.entries.filter (fun q => sweepCond q.2 now)).map Prod.fst)) =
        sweepCond p.2 now := by
      cases hoc : sweepCond p.2 now with
      | true =>
        rw [decide_eq_true_eq]
        refine List.mem_map_of_mem Prod.fst ?_
        rw [List.mem_filter]
        exact ⟨hp, hoc⟩
      | false =>
        rw [decide_eq_false_iff_not]
        intro hmem
        obtain ⟨q, hq, hfst⟩ := List.mem_map.mp hmem
        rw [List.mem_filter] at hq
        have hpq : q = p := eq_of_fst_eq_of_nodup c.entries hnd q p hq.1 hp hfst
        rw [hpq] at hq
        rw [hq.2] at hoc
        cases hoc
    rw [this]
  rw [hfe, List.length_map]
  exact ⟨rfl, rfl, rfl, rfl, rfl, rfl⟩

/-- Claim C5 counterexample: the claim as stated says an explicit
delete(key) never increments the evictions stat, but deleting the only key
of a fresh cache raises evictions from 0 to 1, because the dispose callback
(which does the counting) also runs on delete. -/
theorem eviction_accounting_counterexample :
    ((CacheManager.new Nat 3).set ("a") 7 none .NORMAL 0).evictions = 0 ∧
    ((((CacheManager.new Nat 3).set ("a") 7 none .NORMAL 0).delete ("a")).1.evictions = 1 ∧
      (((CacheManager.new Nat 3).set ("a") 7 none .NORMAL 0).delete ("a")).2 = true) ∧
    (1 : Nat) ≠ 0 :=
  ⟨rfl, ⟨rfl, rfl⟩, by decide⟩

/-- Claim C5 witness: the amended theorem applied to three distinct keys in
a capacity-2 cache, to an expired entry read at time 100, to a delete of a
present key and to a delete of an absent key. -/
theorem eviction_accounting_witness :
    (((["a", "b", "c"] : List String).foldl
        (fun acc k => acc.set k (7 : Nat) none .NORMAL 0)
        (CacheManager.new Nat 2)).evictions = 1 ∧
      ((["a", "b", "c"] : List String).foldl
        (fun acc k => acc.set k (7 : Nat) none .NORMAL 0)
        (CacheManager.new Nat 2)).entries.map Prod.fst = ["b", "c"] ∧
      ((["a", "b", "c"] : List String).foldl
        (fun acc k => acc.set k (7 : Nat) none .NORMAL 0)
        (CacheManager.new Nat 2)).sets = 3) ∧
    ((((CacheManager.new Nat 3).set ("a") (7 : Nat) (some 10) .NORMAL 0).get ("a") 100).1.evictions =
        ((CacheManager.new Nat 3).set ("a") (7 : Nat) (some 10) .NORMAL 0).evictions + 1 ∧
      (((CacheManager.new Nat 3).set ("a") (7 : Nat) (some 10) .NORMAL 0).get ("a") 100).1.misses =
        ((CacheManager.new Nat 3).set ("a") (7 : Nat) (some 10) .NORMAL 0).misses + 1 ∧
      (((CacheManager.new Nat 3).set ("a") (7 : Nat) (some 10) .NORMAL 0).get ("a") 100).2 = none) ∧
    ((((CacheManager.new Nat 3).set ("a") (7 : Nat) none .NORMAL 0).delete ("a")).1.evictions =
        ((CacheManager.new Nat 3).set ("a") (7 : Nat) none .NORMAL 0).evictions + 1 ∧
      (((CacheManager.new Nat 3).set ("a") (7 : Nat) none .NORMAL 0).delete ("a")).2 = true) ∧
    ((CacheManager.new Nat 3).set ("a") (7 : Nat) none .NORMAL 0).delete ("zz") =
      (((CacheManager.new Nat 3).set ("a") (7 : Nat) none .NORMAL 0), false) := by
  refine ⟨?_, ?_, ?_, ?_⟩
  · exact eviction_accounting.1 2 ["a", "b", "c"] 7 .NORMAL 0 _
      (by decide) (by decide) (by decide) rfl
  · exact eviction_accounting.2.1 _ ("a") 100
      (("a"), ⟨⟨("a"), 7, 0, 10, 0, .NORMAL⟩, 0, 10⟩) rfl (by decide)
  · exact eviction_accounting.2.2.1 _ ("a") (by decide)
  · exact eviction_accounting.2.2.2 _ ("zz") (by decide)

/-- Claim C6 counterexample: two failures of the claim as stated. First, a
non-stale qualifying LOW entry (ttl 100, set at 0, optimize at 60: age 60
is past half the ttl but within it) IS removed, and the removal raises
evictions from 0 to 2 (dispose on the delete, plus the explicit increment
in the loop) although the claim says removals do not count. Second, a stale
LOW entry (ttl 10, set at 0, optimize at 100) meets the claimed test — its
age 100 exceeds half its ttl — yet optimize leaves the cache unchanged,
because the lru-cache entries() iterator skips stale entries; so the claim
does not remove exactly the entries it names. -/
theorem optimize_sweep_counterexample :
    (((CacheManager.new Nat 3).set ("a") (7 : Nat) (some 100) .LOW 0).optimize 60).evictions = 2 ∧
    (((CacheManager.new Nat 3).set ("a") (7 : Nat) (some 100) .LOW 0).optimize 60).entries = [] ∧
    ((CacheManager.new Nat 3).set ("a") (7 : Nat) (some 100) .LOW 0).evictions = 0 ∧
    (2 : Nat) ≠ 0 ∧
    optCond (⟨⟨("a"), 7, 0, 10, 0, .LOW⟩, 0, 10⟩ : LruSlot Nat) 100 = true ∧
    (((CacheManager.new Nat 3).set ("a") (7 : Nat) (some 10) .LOW 0).optimize 100).entries =
      ((CacheManager.new Nat 3).set ("a") (7 : Nat) (some 10) .LOW 0).entries ∧
    (((CacheManager.new Nat 3).set ("a") (7 : Nat) (some 10) .LOW 0).optimize 100).evictions = 0 ∧
    ((CacheManager.new Nat 3).set ("a") (7 : Nat) (some 10) .LOW 0).entries ≠ [] :=
  ⟨rfl, rfl, rfl, by decide, by decide, rfl, rfl, by decide⟩

/-- Claim C6 witness: the amended sweep theorem applied to a three-entry
cache holding a non-stale qualifying LOW entry (removed, counted twice), a
stale LOW entry (skipped by the entries() iterator, untouched) and a HIGH
entry (kept). -/
theorem optimize_sweep_witness :
    (((((CacheManager.new Nat 5).set ("a") (7 : Nat) (some 100) .LOW 0).set ("b") 8 (some 10) .LOW 0).set ("c") 9 none .HIGH 0).optimize 60).entries =
      ((((CacheManager.new Nat 5).set ("a") (7 : Nat) (some 100) .LOW 0).set ("b") 8 (some 10) .LOW 0).set ("c") 9 none .HIGH 0).entries.filter
        (fun p => !sweepCond p.2 60) ∧
    (((((CacheManager.new Nat 5).set ("a") (7 : Nat) (some 100) .LOW 0).set ("b") 8 (some 10) .LOW 0).set ("c") 9 none .HIGH 0).optimize 60).evictions =
      ((((CacheManager.new Nat 5).set ("a") (7 : Nat) (some 100) .LOW 0).set ("b") 8 (some 10) .LOW 0).set ("c") 9 none .HIGH 0).evictions +
        2 * (((((CacheManager.new Nat 5).set ("a") (7 : Nat) (some 100) .LOW 0).set ("b") 8 (some 10) .LOW 0).set ("c") 9 none .HIGH 0).entries.filter
          (fun p => sweepCond p.2 60)).length := by
  have h := optimize_sweep
    ((((CacheManager.new Nat 5).set ("a") (7 : Nat) (some 100) .LOW 0).set ("b") 8 (some 10) .LOW 0).set ("c") 9 none .HIGH 0)
    60 (by decide)
  exact ⟨h.1, h.2.1⟩

/-! ### Token optimizer (src/utils/TokenOptimizer.ts)

The optimizer's string machinery is modelled over List Char. JavaScript
toLowerCase is Unicode-aware; the model lowercases the ASCII range, on
which the two agree, and every input a claim touches is ASCII. The word
boundary of the source regexes (\b around a pattern made of word
characters) is: the neighbouring character, when present, is not a word
character. zlib deflateSync/inflateSync are threaded as abstract functions
returning none where the source would throw (its try/catch falls back). -/

def commonTerms : List (String × String) :=
  [(("artificial_intelligence"), ("ai")), (("machine_learning"), ("ml")), (("neural_network"), ("nn")),
   (("deep_learning"), ("dl")), (("natural_language_processing"), ("nlp")), (("computer_vision"), ("cv")),
   (("reinforcement_learning"), ("rl")), (("function"), ("fn")), (("variable"), ("var")),
   (("object"), ("obj")), (("array"), ("arr")), (("string"), ("str")),
   (("number"), ("num")), (("boolean"), ("bool")), (("undefined"), ("undef")),
   (("null"), ("nil")), (("message"), ("msg")), (("request"), ("req")),
   (("response"), ("res")), (("error"), ("err")), (("success"), ("ok")),
   (("failed"), ("fail")), (("processing"), ("proc")), (("optimization"), ("opt")),
   (("configuration"), ("cfg")), (("parameter"), ("param")), (("argument"), ("arg")),
   (("result"), ("res")), (("data"), ("dat")), (("information"), ("info")),
   (("content"), ("cont")), (("context"), ("ctx")), (("memory"), ("mem")),
   (("cache"), ("cch")), (("storage"), ("stor")), (("timestamp"), ("ts")),
   (("identifier"), ("id")), (("priority"), ("pri")), (("status"), ("stat")),
   (("type"), ("typ")), (("value"), ("val")), (("key"), ("k")),
   (("index"), ("idx")), (("length"), ("len")), (("size"), ("sz")),
   (("count"), ("cnt")), (("total"), ("tot")), (("maximum"), ("max")),
   (("minimum"), ("min")), (("average"), ("avg")), (("algorithm"), ("algo")),
   (("protocol"), ("proto")), (("interface"), ("iface")), (("implementation"), ("impl")),
   (("specification"), ("spec")), (("documentation"), ("doc")), (("reference"), ("ref")),
   (("version"), ("ver")), (("revision"), ("rev")), (("iteration"), ("iter")),
   (("execution"), ("exec")), (("evaluation"), ("eval")), (("validation"), ("valid")),
   (("verification"), ("verify")), (("initialization"), ("init")), (("termination"), ("term")),
   (("connection"), ("conn")), (("session"), ("sess")), (("transaction"), ("txn")),
   (("operation"), ("op")), (("instruction"), ("instr")), (("command"), ("cmd")),
   (("query"), ("qry")), (("search"), ("srch")), (("filter"), ("flt")),
   (("sort"), ("srt")), (("transform"), ("xfrm")), (("convert"), ("conv")),
   (("encode"), ("enc")), (("decode"), ("dec")), (("compress"), ("comp")),
   (("decompress"), ("decomp")), (("serialize"), ("ser")), (("deserialize"), ("deser"))]

/-- The effect of JavaScript Map.set: an existing key keeps its insertion
position and gets the new value; a new key is appended. -/
def mapSet (m : List (String × String)) (k v : String) : List (String × String) :=
  if m.any (fun p => p.1 == k) then m.map (fun p => if p.1 == k then (p.1, v) else p)
  else m ++ [(k, v)]

/-- initializeAbbreviations: abbreviations maps full term to abbreviation. -/
def abbreviations : List (String × String) :=
  commonTerms.foldl (fun m p => mapSet m p.1 p.2) []

/-- initializeAbbreviations: reverseAbbreviations maps abbreviation to full
term; the duplicated short form res keeps its first position but ends up
mapped to the last full term that set it (result, not response). -/
def reverseAbbreviations : List (String × String) :=
  commonTerms.foldl (fun m p => mapSet m p.2 p.1) []

/-- ASCII lowercasing (toLowerCase restricted to the ASCII range). -/
def lowerAscii (c : Char) : Char :=
  if 65 ≤ c.toNat ∧ c.toNat ≤ 90 then Char.ofNat (c.toNat + 32) else c

/-- ASCII uppercasing (toUpperCase restricted to the ASCII range). -/
def upperAscii (c : Char) : Char :=
  if 97 ≤ c.toNat ∧ c.toNat ≤ 122 then Char.ofNat (c.toNat - 32) else c

/-- A regex word character: [A-Za-z0-9_]. -/
def isWordChar (c : Char) : Bool :=
  (97 ≤ c.toNat && c.toNat ≤ 122) || (65 ≤ c.toNat && c.toNat ≤ 90) ||
    (48 ≤ c.toNat && c.toNat ≤ 57) || c.toNat == 95

/-- Case-insensitive prefix test (the i flag of the source regexes). -/
def startsWithCI : List Char → List Char → Bool
  | [], _ => true
  | _ :: _, [] => false
  | p :: ps, c :: cs => (lowerAscii c == lowerAscii p) && startsWithCI ps cs

/-- Non-word boundary after a candidate match: the text right after it is
empty or starts with a non-word character. -/
def wbAfter (pat rest : List Char) : Bool :=
  match rest.drop pat.length with
  | [] => true
  | d :: _ => !isWordChar d

/-- One left-to-right pass of text.replace(new RegExp(pat-with-word-
boundaries, gi), rep): at each position, if the pattern matches case-
insensitively with non-word neighbours on both sides, emit the replacement
and continue after the matched region (whose last character becomes the
previous character for the next boundary test), otherwise copy one
character. The fuel only serves structural termination; every step consumes
at least one character, so text.length suffices (patterns are never empty
in the source tables). -/
def replWBF : Nat → Option Char → List Char → List Char → List Char → List Char
  | 0, _, _, _, cs => cs
  | _ + 1, _, _, _, [] => []
  | fuel + 1, prev, pat, rep, c :: cs =>
    if startsWithCI pat (c :: cs) &&
        (match prev with
         | some pc => !isWordChar pc
         | none => true) &&
        wbAfter pat (c :: cs) then
      rep ++ replWBF fuel (some ((c :: cs).getD (pat.length - 1) c)) pat rep
        ((c :: cs).drop pat.length)
    else c :: replWBF fuel (some c) pat rep cs

/-- Word-boundary global replace. -/
def replaceWB (pat rep text : List Char) : List Char :=
  replWBF (text.length + 1) none pat rep text

/-- A regex whitespace character, ASCII range. -/
def isWs (c : Char) : Bool :=
  c.toNat == 32 || c.toNat == 9 || c.toNat == 10 || c.toNat == 13 ||
    c.toNat == 12 || c.toNat == 11

/-- replace(whitespace-runs, one space): the flag records whether the
previous character was whitespace. -/
def collapseWsGo : Bool → List Char → List Char
  | _, [] => []
  | prevWs, c :: cs =>
    if isWs c then
      if prevWs then collapseWsGo true cs else (' ') :: collapseWsGo true cs
    else c :: collapseWsGo false cs

/-- trim. -/
def trimChars (t : List Char) : List Char :=
  ((t.dropWhile isWs).reverse.dropWhile isWs).reverse

/-- One base64 digit. -/
def b64Char (n : Nat) : Char :=
  if n < 26 then Char.ofNat (65 + n)
  else if n < 52 then Char.ofNat (97 + (n - 26))
  else if n < 62 then Char.ofNat (48 + (n - 52))
  else if n == 62 then ('+') else ('/')

/-- buffer.toString(base64). -/
def base64Chars : List Nat → List Char
  | [] => []
  | [a] => [b64Char (a / 4), b64Char (a % 4 * 16), ('='), ('=')]
  | [a, b] => [b64Char (a / 4), b64Char (a % 4 * 16 + b / 16), b64Char (b % 16 * 4), ('=')]
  | a :: b :: c :: rest =>
    b64Char (a / 4) :: b64Char (a % 4 * 16 + b / 16) :: b64Char (b % 16 * 4 + c / 64) ::
      b64Char (c % 64) :: base64Chars rest

/-- One base64 digit value (Buffer.from(s, base64) is lenient: anything
unrecognized contributes nothing of consequence to the claims, which never
reach this path; padding and foreign characters map to 0 here). -/
def b64Val (c : Char) : Nat :=
  if 65 ≤ c.toNat ∧ c.toNat ≤ 90 then c.toNat - 65
  else if 97 ≤ c.toNat ∧ c.toNat ≤ 122 then c.toNat - 97 + 26
  else if 48 ≤ c.toNat ∧ c.toNat ≤ 57 then c.toNat - 48 + 52
  else if c.toNat == 43 then 62
  else if c.toNat == 47 then 63
  else 0

/-- Buffer.from(s, base64): groups of four digits yield three bytes;
padding shortens the final group. -/
def base64Decode : List Char → List Nat
  | c1 :: c2 :: c3 :: c4 :: rest =>
    if c3.toNat == 61 then [b64Val c1 * 4 + b64Val c2 / 16]
    else if c4.toNat == 61 then
      [b64Val c1 * 4 + b64Val c2 / 16, b64Val c2 % 16 * 16 + b64Val c3 / 4]
    else
      (b64Val c1 * 4 + b64Val c2 / 16) :: (b64Val c2 % 16 * 16 + b64Val c3 / 4) ::
        (b64Val c3 % 4 * 64 + b64Val c4) :: base64Decode rest
  | _ => []

/-- The __ZLIB__ marker. -/
def zlibPrefix : List Char := [('_'), ('_'), ('Z'), ('L'), ('I'), ('B'), ('_'), ('_')]

/-- TokenOptimizer.compressString: lowercase, apply every abbreviation as a
word-boundary replacement in table order, collapse whitespace and trim,
then — only above the 100-byte threshold — try zlib deflate and keep it
when it saves more than 20 percent (deflated.length < compressed.length *
0.8, which over integers is 5 * deflated < 4 * compressed). A deflate
failure (none) falls back to the uncompressed text, as the try/catch
does. -/
def compressString (deflate : List Nat → Option (List Nat)) (text : List Char) : List Char :=
  let c1 := text.map lowerAscii
  let c2 := abbreviations.foldl (fun t p => replaceWB p.1.toList p.2.toList t) c1
  let c3 := trimChars (collapseWsGo false c2)
  if 100 < c3.length then
    match deflate (utf8Encode c3) with
    | some d =>
      if 5 * d.length < 4 * c3.length then zlibPrefix ++ base64Chars d else c3
    | none => c3
  else c3

/-- TokenOptimizer.decompressString: a __ZLIB__ payload is base64-decoded
and inflated — an inflate failure returns the input unchanged, as the catch
does — and then every reverse abbreviation is applied in table order. -/
def decompressString (inflate : List Nat → Option (List Nat)) (text : List Char) : List Char :=
  if zlibPrefix.isPrefixOf text then
    match inflate (base64Decode (text.drop 8)) with
    | none => text
    | some bytes =>
      reverseAbbreviations.foldl (fun t p => replaceWB p.1.toList p.2.toList t)
        (utf8Decode bytes)
  else
    reverseAbbreviations.foldl (fun t p => replaceWB p.1.toList p.2.toList t) text

/-- replace(lower-upper pair, with underscore between), globally. -/
def camelToSnake : List Char → List Char
  | [] => []
  | [c] => [c]
  | c1 :: c2 :: cs =>
    if (97 ≤ c1.toNat && c1.toNat ≤ 122) && (65 ≤ c2.toNat && c2.toNat ≤ 90) then
      c1 :: ('_') :: camelToSnake (c2 :: cs)
    else c1 :: camelToSnake (c2 :: cs)

/-- Anchored prefix replace (replace with a leading caret, not global). -/
def prefixRepl (pat rep t : List Char) : List Char :=
  if pat.isPrefixOf t then rep ++ t.drop pat.length else t

/-- Anchored suffix replace (replace with a trailing dollar, not global). -/
def suffixRepl (pat rep t : List Char) : List Char :=
  if pat.isSuffixOf t then t.take (t.length - pat.length) ++ rep else t

/-- replace(underscore followed by a lowercase letter, that letter
uppercased), globally — the camelCase restoration of decompressKey. -/
def underscoreCamel : List Char → List Char
  | [] => []
  | [c] => [c]
  | c1 :: c2 :: cs =>
    if c1.toNat == 95 && (97 ≤ c2.toNat && c2.toNat ≤ 122) then
      upperAscii c2 :: underscoreCamel cs
    else c1 :: underscoreCamel (c2 :: cs)

/-- TokenOptimizer.compressKey. -/
def compressKey (key : List Char) : List Char :=
  match abbreviations.lookup (String.mk key) with
  | some ab => ab.toList
  | none =>
    let s1 := (camelToSnake key).map lowerAscii
    let s2 := prefixRepl ("get_").toList ("g_").toList s1
    let s3 := prefixRepl ("set_").toList ("s_").toList s2
    let s4 := prefixRepl ("is_").toList ("i_").toList s3
    let s5 := prefixRepl ("has_").toList ("h_").toList s4
    let s6 := suffixRepl ("_id").toList ("_i").toList s5
    let s7 := suffixRepl ("_name").toList ("_n").toList s6
    let s8 := suffixRepl ("_type").toList ("_t").toList s7
    let s9 := suffixRepl ("_value").toList ("_v").toList s8
    let s10 := suffixRepl ("_data").toList ("_d").toList s9
    let s11 := suffixRepl ("_info").toList ("_inf").toList s10
    let s12 := suffixRepl ("_config").toList ("_cfg").toList s11
    suffixRepl ("_result").toList ("_res").toList s12

/-- TokenOptimizer.decompressKey. -/
def decompressKey (key : List Char) : List Char :=
  match reverseAbbreviations.lookup (String.mk key) with
  | some full => full.toList
  | none =>
    let s1 := prefixRepl ("g_").toList ("get_").toList key
    let s2 := prefixRepl ("s_").toList ("set_").toList s1
    let s3 := prefixRepl ("i_").toList ("is_").toList s2
    let s4 := prefixRepl ("h_").toList ("has_").toList s3
    let s5 := suffixRepl ("_i").toList ("_id").toList s4
    let s6 := suffixRepl ("_n").toList ("_name").toList s5
    let s7 := suffixRepl ("_t").toList ("_type").toList s6
    let s8 := suffixRepl ("_v").toList ("_value").toList s7
    let s9 := suffixRepl ("_d").toList ("_data").toList s8
    let s10 := suffixRepl ("_inf").toList ("_info").toList s9
    let s11 := suffixRepl ("_cfg").toList ("_config").toList s10
    let s12 := suffixRepl ("_res").toList ("_result").toList s11
    underscoreCamel s12

mutual
/-- TokenOptimizer.compress: strings through compressString; null and
arrays fall into the object branch (typeof null and typeof an array are
both the string object, and Array.isArray is only tested afterwards), so
compressObject returns null unchanged and turns an array into an object
keyed by the decimal array indices Object.entries yields; booleans and
numbers pass through. -/
def compress (deflate : List Nat → Option (List Nat)) : Value → Value
  | .vstr s => .vstr (compressString deflate s)
  | .vnull => .vnull
  | .varr xs => .vobj (compressArrEntries deflate 0 xs)
  | .vobj kvs => .vobj (compressPairs deflate kvs)
  | .vbool b => .vbool b
  | .vint n => .vint n
  | .vfloat bits => .vfloat bits
/-- compressObject over the pairs of an object. -/
def compressPairs (deflate : List Nat → Option (List Nat)) : VPairs → VPairs
  | .nil => .nil
  | .cons k v t =>
    .cons (compressKey k) (compress deflate v) (compressPairs deflate t)
/-- compressObject over Object.entries of an array: decimal index keys. -/
def compressArrEntries (deflate : List Nat → Option (List Nat)) (i : Nat) : VList → VPairs
  | .nil => .nil
  | .cons v t =>
    .cons (compressKey (Nat.repr i).toList) (compress deflate v)
      (compressArrEntries deflate (i + 1) t)
end

mutual
/-- TokenOptimizer.decompress: strings through decompressString; non-null
objects (arrays included, by the same dispatch as compress) through
decompressObject; null, booleans and numbers pass through. -/
def decompress (inflate : List Nat → Option (List Nat)) : Value → Value
  | .vstr s => .vstr (decompressString inflate s)
  | .vnull => .vnull
  | .varr xs => .vobj (decompressArrEntries inflate 0 xs)
  | .vobj kvs => .vobj (decompressPairs inflate kvs)
  | .vbool b => .vbool b
  | .vint n => .vint n
  | .vfloat bits => .vfloat bits
/-- decompressObject over the pairs of an object. -/
def decompressPairs (inflate : List Nat → Option (List Nat)) : VPairs → VPairs
  | .nil => .nil
  | .cons k v t =>
    .cons (decompressKey k) (decompress inflate v) (decompressPairs inflate t)
/-- decompressObject over Object.entries of an array. -/
def decompressArrEntries (inflate : List Nat → Option (List Nat)) (i : Nat) : VList → VPairs
  | .nil => .nil
  | .cons v t =>
    .cons (decompressKey (Nat.repr i).toList) (decompress inflate v)
      (decompressArrEntries inflate (i + 1) t)
end

set_option maxRecDepth 40000 in
/-- Claim C9 counterexample: decompress(compress v) is not v in general.
The string A comes back as the lowercased a (compressString lowercases
first); the empty array comes back as an empty object (arrays fall into
compressObject via Object.entries); the string response comes back as
result (both response and result abbreviate to res, and the reverse map
keeps the later binding). -/
theorem content_transform_counterexample :
    decompress (fun _ => none) (compress (fun _ => none) (.vstr [('A')])) =
      .vstr [('a')] ∧
    Value.vstr [('a')] ≠ Value.vstr [('A')] ∧
    decompress (fun _ => none) (compress (fun _ => none) (.varr .nil)) = .vobj .nil ∧
    Value.vobj .nil ≠ Value.varr .nil ∧
    decompress (fun _ => none) (compress (fun _ => none) (.vstr ("response").toList)) =
      .vstr ("result").toList ∧
    Value.vstr ("result").toList ≠ Value.vstr ("response").toList := by
  refine ⟨by decide, by decide, rfl, by decide, by decide, by decide⟩

/-- Claim C9, amended — the right-inverse property of the content transform
holds on the sub-domain of atoms: for null, every boolean and every number
(integral or not), decompress(compress v) = v, for every deflate and
inflate behaviour; it fails for strings and for arrays and objects in
general (see the counterexample). -/
theorem content_transform_atoms (deflate inflate : List Nat → Option (List Nat))
    (v : Value)
    (h : v = .vnull ∨ (∃ b, v = .vbool b) ∨ (∃ n, v = .vint n) ∨
      (∃ bits, v = .vfloat bits)) :
    decompress inflate (compress deflate v) = v := by
  rcases h with h | ⟨b, h⟩ | ⟨n, h⟩ | ⟨bits, h⟩ <;> rw [h] <;> rfl

/-- Claim C9 witness: the amended theorem applied to null, true, the
integer 5 and a float image. -/
theorem content_transform_atoms_witness :
    decompress (fun _ => none) (compress (fun _ => none) .vnull) = .vnull ∧
    decompress (fun _ => none) (compress (fun _ => none) (.vbool true)) = .vbool true ∧
    decompress (fun _ => none) (compress (fun _ => none) (.vint 5)) = .vint 5 ∧
    decompress (fun _ => none) (compress (fun _ => none) (.vfloat [1, 2, 3, 4, 5, 6, 7, 8])) =
      .vfloat [1, 2, 3, 4, 5, 6, 7, 8] :=
  ⟨content_transform_atoms _ _ .vnull (Or.inl rfl),
   content_transform_atoms _ _ (.vbool true) (Or.inr (Or.inl ⟨true, rfl⟩)),
   content_transform_atoms _ _ (.vint 5) (Or.inr (Or.inr (Or.inl ⟨5, rfl⟩))),
   content_transform_atoms _ _ (.vfloat [1, 2, 3, 4, 5, 6, 7, 8])
     (Or.inr (Or.inr (Or.inr ⟨[1, 2, 3, 4, 5, 6, 7, 8], rfl⟩)))⟩

/-! ### Orchestrator (src/core/AIProcessingLayer.ts)

The orchestrator owns the peer registry and the shared cache and drives the
nine-phase delivery pipeline. Date.now() is the explicit now argument (a
single tick per call; the claims do not depend on sub-call tick
differences). zlib is threaded through as in the token optimizer. -/

inductive MessageType where
  | INSTRUCTION
  | QUERY
  | RESPONSE
  | DATA_TRANSFER
  | SYSTEM_COMMAND
  | MEMORY_SYNC
  | A114_PROTOCOL
deriving DecidableEq

inductive EncodingType where
  | JSON
  | BINARY
  | A114
  | COMPRESSED_JSON
deriving DecidableEq

/-- Compacted message content: the token-optimizer value or the A114
packet bytes. -/
inductive CVal where
  | v (x : Value)
  | buf (bs : List Nat)
deriving DecidableEq

/-- A peer's private memory holds mirrored messages and learning notes. -/
inductive MemVal where
  | msg (content : CVal) (sender : String) (timestamp : Nat)
  | learn (note : String)
deriving DecidableEq

structure AIAgent where
  id : String
  name : String
  capabilities : List String
  memoryContext : List (String × MemVal)
  lastActive : Nat
deriving DecidableEq

structure AIMessage where
  id : String
  timestamp : Nat
  senderId : String
  receiverId : String
  content : Value
  messageType : MessageType
  priority : Priority
  compressed : Bool
  encoding : EncodingType
deriving DecidableEq

structure CompactMessage where
  i : String
  t : Nat
  s : String
  r : String
  c : CVal
  mt : MessageType
  p : Priority
  cp : Bool
  e : EncodingType
deriving DecidableEq

structure AIProcessingLayer where
  agents : List (String × AIAgent)
  cache : CacheManager CompactMessage
deriving DecidableEq

/-- The constructor: empty registry, cache with the default capacity
1000. -/
def AIProcessingLayer.new : AIProcessingLayer :=
  ⟨[], CacheManager.new CompactMessage 1000⟩

/-- The effect of JavaScript Map.set for an arbitrary value type: an
existing key keeps its position and gets the new value, a new key is
appended. -/
def assocSet {β : Type} (m : List (String × β)) (k : String) (v : β) :
    List (String × β) :=
  if m.any (fun p => p.1 == k) then m.map (fun p => if p.1 == k then (p.1, v) else p)
  else m ++ [(k, v)]

/-- AIProcessingLayer.registerAgent: insert or replace by id. -/
def registerAgent (L : AIProcessingLayer) (a : AIAgent) : AIProcessingLayer :=
  { L with agents := assocSet L.agents a.id a }

/-- Orchestrator faults: the registration precondition, the routing
re-check, and codec errors escaping encode. -/
inductive LErr where
  | agentNotRegistered
  | receiverNotFound
  | enc (e : PErr)
deriving DecidableEq

/-- Phase 2 (optimizeMessage): build the compact message; content goes
through the A114 codec when the encoding says so (its throw propagates),
otherwise through the token optimizer; compressed is set true. -/
def optimizeMessage (deflate : List Nat → Option (List Nat)) (m : AIMessage) :
    Except LErr CompactMessage :=
  if m.encoding = EncodingType.A114 then
    match encode m.content with
    | .error e => .error (.enc e)
    | .ok bs =>
      .ok ⟨m.id, m.timestamp, m.senderId, m.receiverId, .buf bs, m.messageType,
        m.priority, true, m.encoding⟩
  else
    .ok ⟨m.id, m.timestamp, m.senderId, m.receiverId,
      .v (compress deflate m.content), m.messageType, m.priority, true, m.encoding⟩

/-- Phase 3 (routeMessage): re-check the receiver, cache the compact
message under msg_ id with a 5-minute ttl and the message priority, mirror
it into the receiver's memory under the same key, refresh lastActive. -/
def routeMessage (L : AIProcessingLayer) (cm : CompactMessage) (now : Nat) :
    Except LErr AIProcessingLayer :=
  match L.agents.find? (fun p => p.1 == cm.r) with
  | none => .error .receiverNotFound
  | some p =>
    let receiver2 : AIAgent :=
      { p.2 with
        memoryContext := assocSet p.2.memoryContext (("msg_") ++ cm.i)
          (.msg cm.c cm.s cm.t),
        lastActive := now }
    .ok { agents := assocSet L.agents cm.r receiver2,
          cache := L.cache.set (("msg_") ++ cm.i) cm (some 300000) cm.p now }

/-- Phase 4 data: fixed illustrative strategies; efficiency is recorded in
hundredths (0.95 in the source is 95 here) because the record is pure
bookkeeping never read back. -/
structure RoutingOutcome where
  strategy : String
  efficiencyPct : Nat
  latency : Nat
deriving DecidableEq

def evaluateRoutingOutcomes : List RoutingOutcome :=
  [⟨("direct"), 95, 10⟩, ⟨("cached"), 98, 5⟩, ⟨("compressed"), 85, 15⟩]

/-- Phase 5 (testMessageDelivery): receiver memory check (undefined — a
missing receiver — is falsy), cache check, and the always-true integrity
check. -/
def testMessageDelivery (L : AIProcessingLayer) (cm : CompactMessage) (now : Nat) :
    List (String × Bool) :=
  [(("receiver_memory"),
    match L.agents.find? (fun p => p.1 == cm.r) with
    | some p => p.2.memoryContext.any (fun q => q.1 == ("msg_") ++ cm.i)
    | none => false),
   (("cache_storage"), L.cache.hasKey (("msg_") ++ cm.i) now),
   (("message_integrity"), true)]

/-- Phase 6 (generateFeedback). -/
def generateFeedback (testResults : List (String × Bool)) : String :=
  if (testResults.filter (fun r => r.2)).length == testResults.length then
    ("All delivery tests passed successfully")
  else
    (Nat.repr (testResults.filter (fun r => r.2)).length) ++ ("/") ++
      (Nat.repr testResults.length) ++ (" tests passed. Issues detected.")

/-- Phase 7 (correctMessageDelivery): one re-run of routing. -/
def correctMessageDelivery (L : AIProcessingLayer) (cm : CompactMessage) (now : Nat) :
    Except LErr (AIProcessingLayer × String) :=
  match routeMessage L cm now with
  | .error e => .error e
  | .ok L2 => .ok (L2, ("Message delivery corrected through retry mechanism"))

/-- Phase 8 (validateDelivery): all three self-tests pass. -/
def validateDelivery (L : AIProcessingLayer) (cm : CompactMessage) (now : Nat) : Bool :=
  (testMessageDelivery L cm now).all (fun r => r.2)

/-- Phase 9 (extractLearnings). -/
def extractLearnings (feedback : String) : String :=
  ("Learned: Message optimization strategy successful. Feedback: ") ++ feedback

/-- Phase 9 (updateAgentMemory): append the learning under a timestamped
key into the sender's memory. -/
def updateAgentMemory (L : AIProcessingLayer) (agentId : String) (learning : String)
    (now : Nat) : AIProcessingLayer :=
  match L.agents.find? (fun p => p.1 == agentId) with
  | none => L
  | some p =>
    let sender2 : AIAgent :=
      { p.2 with
        memoryContext := assocSet p.2.memoryContext
          (("learning_") ++ (Nat.repr now)) (.learn learning) }
    { L with agents := assocSet L.agents agentId sender2 }

/-- The delivery record assembled during one send (ephemeral; only
learning escapes, into the sender's memory). -/
structure OptimizationContext where
  intention : String
  action : String
  reaction : Option String
  outcomes : List RoutingOutcome
  testResults : List (String × Bool)
  feedback : String
  correction : Option String
  validation : Bool
  learning : String
  finalOutcome : Bool × String
deriving DecidableEq

/-- The body of sendMessage (the content of its try block): the
registration precondition, then phases 2 through 9 in order. The state
reached so far is returned alongside the outcome, because a JavaScript
throw leaves earlier mutations in place for the catch. Phase 7 runs the
routing retry only when some self-test failed. The final return is
context.validation (always a boolean at that point, so the source's
trailing or-false does not alter it). -/
def sendMessageBody (deflate : List Nat → Option (List Nat)) (L : AIProcessingLayer)
    (m : AIMessage) (now : Nat) : AIProcessingLayer × Except LErr Bool :=
  if ¬(L.agents.any (fun p => p.1 == m.senderId) ∧
       L.agents.any (fun p => p.1 == m.receiverId)) then
    (L, .error .agentNotRegistered)
  else
    match optimizeMessage deflate m with
    | .error e => (L, .error e)
    | .ok cm =>
      match routeMessage L cm now with
      | .error e => (L, .error e)
      | .ok L1 =>
        let tests := testMessageDelivery L1 cm now
        let feedback := generateFeedback tests
        match (if tests.all (fun r => r.2) then .ok (L1, none)
               else
                 match correctMessageDelivery L1 cm now with
                 | .error e => .error e
                 | .ok pr => .ok (pr.1, some pr.2) :
               Except LErr (AIProcessingLayer × Option String)) with
        | .error e => (L1, .error e)
        | .ok (L2, correction) =>
          let valid := validateDelivery L2 cm now
          let learning := extractLearnings feedback
          let L3 := updateAgentMemory L2 m.senderId learning now
          let ctx : OptimizationContext :=
            ⟨("Send optimized message from ") ++ m.senderId ++ (" to ") ++ m.receiverId,
             ("Optimize and route message"), some (("routed:") ++ cm.i),
             evaluateRoutingOutcomes, tests, feedback, correction, valid, learning,
             (valid, m.id)⟩
          (L3, .ok ctx.validation)

/-- AIProcessingLayer.sendMessage: the body inside the top-level try; any
fault is caught, logged and converted to a false return. -/
def sendMessage (deflate : List Nat → Option (List Nat)) (L : AIProcessingLayer)
    (m : AIMessage) (now : Nat) : AIProcessingLayer × Bool :=
  match sendMessageBody deflate L m now with
  | (L2, .ok b) => (L2, b)
  | (L2, .error _) => (L2, false)

/-- Claim C7 — unregistered-peer atomicity: when the sender or the receiver
is not registered, sendMessage returns false and the entire layer state —
registry, every peer's private memory, the shared cache and all its
statistics — is returned unchanged: the registration check precedes every
mutation of the pipeline. -/
theorem unregistered_peer_no_side_effect (deflate : List Nat → Option (List Nat))
    (L : AIProcessingLayer) (m : AIMessage) (now : Nat)
    (h : L.agents.any (fun p => p.1 == m.senderId) = false ∨
      L.agents.any (fun p => p.1 == m.receiverId) = false) :
    sendMessage deflate L m now = (L, false) := by
  rw [sendMessage, sendMessageBody, if_pos ?cond]
  case cond =>
    intro hc
    rcases h with h | h
    · rw [h] at hc
      cases hc.1
    · rw [h] at hc
      cases hc.2

/-- Claim C7 witness: a layer holding only peer A, a message from A to the
unregistered B — sendMessage leaves the state untouched and returns
false. -/
theorem unregistered_peer_no_side_effect_witness :
    sendMessage (fun _ => none)
      (registerAgent AIProcessingLayer.new ⟨("A"), ("Agent A"), [], [], 0⟩)
      ⟨("m1"), 0, ("A"), ("B"), .vnull, .INSTRUCTION, .NORMAL, false, .JSON⟩ 5 =
      ((registerAgent AIProcessingLayer.new ⟨("A"), ("Agent A"), [], [], 0⟩), false) :=
  unregistered_peer_no_side_effect (fun _ => none)
    (registerAgent AIProcessingLayer.new ⟨("A"), ("Agent A"), [], [], 0⟩)
    ⟨("m1"), 0, ("A"), ("B"), .vnull, .INSTRUCTION, .NORMAL, false, .JSON⟩ 5
    (Or.inr (by decide))

/-- Claim C8 — fault absorption: sendMessage never lets a pipeline fault
reach the caller; whenever the body (the content of the try block) ends in
a thrown error, the caller gets false together with the state the body had
reached, and whenever the body completes, the caller gets its boolean — so
the only observable outcomes are true and false. -/
theorem fault_absorption (deflate : List Nat → Option (List Nat))
    (L : AIProcessingLayer) (m : AIMessage) (now : Nat) :
    (∀ e : LErr, (sendMessageBody deflate L m now).2 = .error e →
      sendMessage deflate L m now = ((sendMessageBody deflate L m now).1, false)) ∧
    (∀ b : Bool, (sendMessageBody deflate L m now).2 = .ok b →
      sendMessage deflate L m now = ((sendMessageBody deflate L m now).1, b)) := by
  constructor
  · intro e h
    rw [sendMessage]
    cases hb : sendMessageBody deflate L m now with
    | mk L2 r =>
      rw [hb] at h
      dsimp only [] at h
      rw [h]
  · intro b h
    rw [sendMessage]
    cases hb : sendMessageBody deflate L m now with
    | mk L2 r =>
      rw [hb] at h
      dsimp only [] at h
      rw [h]

/-- Claim C8 witness: with both peers registered and a content whose A114
encoding overflows the INT32 write, the phase-2 fault is absorbed into a
false return; and a successful A-to-B send returns the body's boolean. -/
theorem fault_absorption_witness :
    (sendMessageBody (fun _ => none)
      (registerAgent (registerAgent AIProcessingLayer.new ⟨("A"), ("Agent A"), [], [], 0⟩)
        ⟨("B"), ("Agent B"), [], [], 0⟩)
      ⟨("m1"), 0, ("A"), ("B"), .vint 2147483648, .INSTRUCTION, .NORMAL, false, .A114⟩ 5).2 =
      .error (.enc .intRange) ∧
    sendMessage (fun _ => none)
      (registerAgent (registerAgent AIProcessingLayer.new ⟨("A"), ("Agent A"), [], [], 0⟩)
        ⟨("B"), ("Agent B"), [], [], 0⟩)
      ⟨("m1"), 0, ("A"), ("B"), .vint 2147483648, .INSTRUCTION, .NORMAL, false, .A114⟩ 5 =
      ((sendMessageBody (fun _ => none)
        (registerAgent (registerAgent AIProcessingLayer.new ⟨("A"), ("Agent A"), [], [], 0⟩)
          ⟨("B"), ("Agent B"), [], [], 0⟩)
        ⟨("m1"), 0, ("A"), ("B"), .vint 2147483648, .INSTRUCTION, .NORMAL, false, .A114⟩ 5).1,
        false) :=
  ⟨rfl,
   (fault_absorption (fun _ => none)
     (registerAgent (registerAgent AIProcessingLayer.new ⟨("A"), ("Agent A"), [], [], 0⟩)
       ⟨("B"), ("Agent B"), [], [], 0⟩)
     ⟨("m1"), 0, ("A"), ("B"), .vint 2147483648, .INSTRUCTION, .NORMAL, false, .A114⟩ 5).1
     (.enc .intRange) rfl⟩
